import Mathlib

/-!
Verification development for the MeterMeter scansion engine.

The definitions below are a shallow embedding of the Python sources
`metermeter/meter_engine.py`, `metermeter/llm_refiner.py` and
`metermeter_cli.py`.  Stress symbols are the characters 'U' and 'S',
costs and scores are exact rationals, and the external prosodic oracle
(which segments a raw line into words and syllables with a lexical
stress flag) is represented by explicit input data at the boundary
where the source calls into the `prosodic` library.
-/

namespace MeterMeter

/-! ### Constants (`meter_engine.py`, module level) -/

def BINARY_FIRST_POS_DISCOUNT : ℚ := 5/10
def LENGTH_MISMATCH_COST : ℚ := 85/100
def FEMININE_ENDING_COST : ℚ := 30/100
def IAMBIC_PENTAMETER_BONUS : ℚ := 18/100
def TROCHAIC_PENTAMETER_BONUS : ℚ := 3/100
def TERNARY_METER_PENALTY : ℚ := 14/100
def IAMBIC_BIAS_THRESHOLD : ℚ := 10/100
def IAMBIC_HEXAMETER_BONUS : ℚ := 12/100
def IAMBIC_FIRST_FOOT_PENALTY : ℚ := 16/100
def IAMBIC_SPONDEE_PENALTY : ℚ := 34/100
def IAMBIC_WEAK_STRONG_PENALTY : ℚ := 58/100
def TROCHAIC_FIRST_FOOT_PENALTY : ℚ := 18/100
def TROCHAIC_SPONDEE_PENALTY : ℚ := 38/100
def TROCHAIC_WEAK_STRONG_PENALTY : ℚ := 54/100

def MONO_FLIP_COST : ℚ := 130/100
def POLY_FLIP_COST : ℚ := 175/100
def FUNCTION_TO_STRONG_FLIP_COST : ℚ := 85/100
def STRONG_TO_WEAK_FLIP_COST : ℚ := 105/100
def CONTEXT_PRIOR_MAX_BONUS : ℚ := 12/100

/-- `UNSTRESSED_MONOSYLLABLES` from `meter_engine.py`. -/
def UNSTRESSED_MONOSYLLABLES : List String :=
  ["a", "an", "the",
   "at", "by", "for", "from", "in", "of", "on", "per", "to", "with",
   "and", "but", "or", "nor", "if", "as", "than", "so", "yet",
   "twas", "tis",
   "let",
   "am", "are", "be", "been", "can", "could", "did", "do", "does",
   "had", "has", "have", "is", "may", "might", "must", "shall",
   "should", "was", "were", "will", "would",
   "i", "me", "my", "he", "him", "his", "she", "her", "it", "its",
   "we", "us", "our", "they", "them", "their", "you", "your",
   "who", "whom", "whose", "which",
   "some", "this", "these", "those"]

/-- `STRESSED_MONOSYLLABLES` from `meter_engine.py`. -/
def STRESSED_MONOSYLLABLES : List String :=
  ["all", "round", "here", "own", "each", "there", "off", "down",
   "up", "such", "out", "more", "one", "what", "not", "then", "art"]

/-- Keys of the `FOOT_TEMPLATES` dict, in insertion order. -/
def footNames : List String := ["iambic", "trochaic", "anapestic", "dactylic"]

/-- `FOOT_TEMPLATES` lookup (the dict maps each foot name to its unit pattern). -/
def footTemplate (footName : String) : List Char :=
  if footName = "iambic" then ['U', 'S']
  else if footName = "trochaic" then ['S', 'U']
  else if footName = "anapestic" then ['U', 'U', 'S']
  else if footName = "dactylic" then ['S', 'U', 'U']
  else []

/-- `METER_LENGTH_DELTAS.get(foot_name, (0,))`. -/
def meterLengthDeltas (footName : String) : List ℤ :=
  if footName = "iambic" then [0, 1]
  else if footName = "trochaic" then [-1, 0]
  else if footName = "anapestic" then [-1, 0]
  else if footName = "dactylic" then [-1, 0]
  else [0]

/-- `LINE_NAME_BY_FEET` as an association list. -/
def LINE_NAME_BY_FEET : List (ℕ × String) :=
  [(1, "monometer"), (2, "dimeter"), (3, "trimeter"),
   (4, "tetrameter"), (5, "pentameter"), (6, "hexameter")]

/-- `LINE_NAME_BY_FEET.get(feet, f"{feet}-foot")`. -/
def lineNameByFeet (feet : ℕ) : String :=
  (LINE_NAME_BY_FEET.lookup feet).getD (toString feet ++ "-foot")

/-- Python `str.strip()` at the character level: drop whitespace from both
ends. -/
def charsTrim (cs : List Char) : List Char :=
  ((cs.dropWhile Char.isWhitespace).reverse.dropWhile Char.isWhitespace).reverse

def strTrim (s : String) : String := ⟨charsTrim s.data⟩

/-- Python `str.lower()` at the character level. -/
def strLower (s : String) : String := ⟨s.data.map Char.toLower⟩

/-- The maximal whitespace-free chunks of a character list (the pieces a
`\s+`-separated regex sees after stripping). -/
def wordsOf (cs : List Char) : List (List Char) :=
  (cs.foldr (fun c acc =>
    if c.isWhitespace then [] :: acc
    else
      match acc with
      | [] => [[c]]
      | w :: ws => (c :: w) :: ws) []).filter (fun w => w ≠ [])

/-- `METER_NAME_RE`: an accepted name is foot name, whitespace, line-length
name, with optional surrounding whitespace, after lower-casing.  Returns the
`(foot_name, feet)` pair recovered by `MeterEngine._parse_meter_name`. -/
def parseMeterName (meterName : String) : Option (String × ℕ) :=
  match wordsOf (meterName.data.map Char.toLower) with
  | [f, l] =>
      if (⟨f⟩ : String) ∈ footNames then
        ((LINE_NAME_BY_FEET.find? (fun p => p.2 = (⟨l⟩ : String))).map
          (fun p => ((⟨f⟩ : String), p.1)))
      else none
  | _ => none

/-- True iff the string matches the meter-name grammar
`(iambic|trochaic|anapestic|dactylic) (monometer|...|hexameter)`. -/
def isValidMeterName (meterName : String) : Bool :=
  (parseMeterName meterName).isSome

/-! ### Deterministic scoring helpers (`MeterEngine`) -/

def isBinaryFootName (footName : String) : Prop :=
  footName = "iambic" ∨ footName = "trochaic"

instance (footName : String) : Decidable (isBinaryFootName footName) := by
  unfold isBinaryFootName; infer_instance

/-- `MeterEngine._pattern_distance`. -/
def patternDistance (a b : List Char) (footName : String) : ℚ :=
  if a = [] ∧ b = [] then 0
  else
    let common := min a.length b.length
    let mismatch : ℚ := (List.range common).foldl (fun acc idx =>
      if a.getD idx ' ' = b.getD idx ' ' then acc
      else if idx = 0 ∧ isBinaryFootName footName then acc + BINARY_FIRST_POS_DISCOUNT
      else acc + 1) 0
    let lenDiff := max a.length b.length - min a.length b.length
    if lenDiff = 1 ∧ b.length < a.length ∧ a.getLast? = some 'U' then
      mismatch + FEMININE_ENDING_COST
    else if 0 < lenDiff then
      mismatch + lenDiff * LENGTH_MISMATCH_COST
    else mismatch

/-- `MeterEngine._template_for_meter`: the unit pattern repeated `feet` times. -/
def templateForMeter (footName : String) (feet : ℕ) : List Char :=
  (List.replicate feet (footTemplate footName)).flatten

/-- `MeterEngine._allowed_syllable_counts_for_meter`:
`sorted({base_len + delta for delta in deltas if (base_len + delta) > 0})`. -/
def allowedSyllableCountsForMeter (footName : String) (feet : ℕ) : List ℤ :=
  let baseLen : ℤ := (footTemplate footName).length * feet
  ((((meterLengthDeltas footName).map (fun d => baseLen + d)).filter
      (fun v => 0 < v)).dedup).mergeSort (fun a b => decide (a ≤ b))

/-- `MeterEngine._foot_position_penalty`. -/
def footPositionPenalty (pattern : List Char) (footName : String) (feet : ℕ) : ℚ :=
  if pattern = [] ∨ ¬ isBinaryFootName footName then 0
  else
    let unit := footTemplate footName
    let n := min pattern.length (unit.length * feet)
    (List.range n).foldl (fun out i =>
      let expected := unit.getD (i % 2) ' '
      let got := pattern.getD i ' '
      if got = expected then out
      else
        let footIdx := i / 2
        let inFootPos := i % 2
        if footName = "iambic" then
          if footIdx = 0 then out + IAMBIC_FIRST_FOOT_PENALTY
          else if inFootPos = 0 then out + IAMBIC_SPONDEE_PENALTY
          else out + IAMBIC_WEAK_STRONG_PENALTY
        else
          if footIdx = 0 then out + TROCHAIC_FIRST_FOOT_PENALTY
          else if inFootPos = 0 then out + TROCHAIC_SPONDEE_PENALTY
          else out + TROCHAIC_WEAK_STRONG_PENALTY) 0

/-- `MeterEngine._apply_meter_length_priors`. -/
def applyMeterLengthPriors (score : ℚ) (footName : String) (feet : ℕ)
    (patternLen : ℕ) : ℚ :=
  let out := score
  let out :=
    if 9 ≤ patternLen ∧ patternLen ≤ 11 then
      let out :=
        if footName = "trochaic" ∧ feet = 5 then out + TROCHAIC_PENTAMETER_BONUS
        else if footName = "anapestic" ∨ footName = "dactylic" then
          out - TERNARY_METER_PENALTY
        else out
      if footName = "iambic" ∧ feet = 5 ∧ 10 ≤ patternLen then
        out + IAMBIC_PENTAMETER_BONUS
      else out
    else out
  let out :=
    if 12 ≤ patternLen ∧ patternLen ≤ 13 then
      if footName = "iambic" ∧ feet = 6 then out + IAMBIC_HEXAMETER_BONUS
      else if footName = "anapestic" ∨ footName = "dactylic" then
        out - TERNARY_METER_PENALTY
      else out
    else out
  max 0 (min 1 out)

/-- `MeterEngine._score_pattern_for_meter`. -/
def scorePatternForMeter (pattern : List Char) (footName : String) (feet : ℕ) : ℚ :=
  if pattern = [] then 0
  else
    let template := templateForMeter footName feet
    let dist := patternDistance pattern template footName
      + footPositionPenalty pattern footName feet
    let normalizer : ℚ := max (max pattern.length template.length) 1
    let score := max 0 (1 - dist / normalizer)
    let score := applyMeterLengthPriors score footName feet pattern.length
    max 0 (min 1 score)

/-- The character filter `"".join(ch for ch in s.upper() if ch in {"U","S"})`. -/
def stressFilter (s : String) : List Char :=
  (s.data.map Char.toUpper).filter (fun c => c = 'U' ∨ c = 'S')

/-- `MeterEngine._meter_candidates`: candidate `(foot, feet, score)` triples,
sorted by preliminary score descending (stable sort, as Python's `list.sort`). -/
def meterCandidates (pattern : List Char) : List (String × ℕ × ℚ) :=
  if pattern = [] then []
  else
    let syllables := pattern.length
    let cands := footNames.flatMap (fun footName =>
      (List.range 6).filterMap (fun k =>
        let feet := k + 1
        if (syllables : ℤ) ∈ allowedSyllableCountsForMeter footName feet then
          let template := templateForMeter footName feet
          let dist := patternDistance pattern template footName
          let normalizer : ℚ := max (max pattern.length template.length) 1
          some (footName, feet, max 0 (1 - dist / normalizer))
        else none))
    cands.mergeSort (fun x y => decide (y.2.2 ≤ x.2.2))

/-- `MeterEngine.score_stress_pattern_for_meter`. -/
def scoreStressPatternForMeter (stressPattern : String) (meterName : String) :
    Option ℚ :=
  match parseMeterName meterName with
  | none => none
  | some (footName, feet) =>
      let pattern := stressFilter stressPattern
      if pattern = [] then none
      else some (scorePatternForMeter pattern footName feet)

/-- The rescored candidate list built inside
`MeterEngine.best_meter_for_stress_pattern` (before the final sort). -/
def rescoredFor (pattern : List Char) : List (String × ℕ × ℚ) :=
  (meterCandidates pattern).map (fun c => (c.1, c.2.1, scorePatternForMeter pattern c.1 c.2.1))

/-- The rescored list sorted by score descending (Python stable sort). -/
def sortedRescored (pattern : List Char) : List (String × ℕ × ℚ) :=
  (rescoredFor pattern).mergeSort (fun x y => decide (y.2.2 ≤ x.2.2))

/-- The top-ranked candidate's score (`best_score` after the sort,
before the iambic tie-break). -/
def topRescoredScore (pattern : List Char) : ℚ :=
  ((sortedRescored pattern).headD ("", 0, 0)).2.2

/-- `MeterEngine.best_meter_for_stress_pattern`.  Returns
`(meter_name, best_score, debug)` where `debug` is the debug-score
association list in insertion order. -/
def bestMeterForStressPattern (stressPattern : String) :
    String × ℚ × List (String × ℚ) :=
  let pattern := stressFilter stressPattern
  if pattern = [] then ("", 0, [("margin", 0)])
  else
    let rescored := rescoredFor pattern
    if rescored = [] then ("", 0, [("margin", 0)])
    else
      let sorted := sortedRescored pattern
      let best0 := sorted.headD ("", 0, 0)
      let target : Option ℕ :=
        if 10 ≤ pattern.length ∧ pattern.length ≤ 11 then some 5
        else if 12 ≤ pattern.length ∧ pattern.length ≤ 13 then some 6
        else none
      let biased : (String × ℕ × ℚ) × Bool :=
        match target with
        | none => (best0, false)
        | some t =>
            let iambicScore := scorePatternForMeter pattern "iambic" t
            if (best0.1 ≠ "iambic" ∨ best0.2.1 ≠ t) ∧
                iambicScore ≥ best0.2.2 - IAMBIC_BIAS_THRESHOLD then
              (("iambic", t, iambicScore), true)
            else (best0, false)
      let best := biased.1
      let secondScore := sorted.foldl (fun acc c =>
        if c.1 = best.1 ∧ c.2.1 = best.2.1 then acc
        else max acc c.2.2) 0
      let margin := max 0 (best.2.2 - secondScore)
      let meterNameOut := best.1 ++ " " ++ lineNameByFeet best.2.1
      let debug := [("margin", margin), ("second_score", secondScore),
                    ("iambic_bias", if biased.2 then (1 : ℚ) else 0)]
        ++ ((sorted.take 4).enum).map (fun p =>
              ("top" ++ toString (p.1 + 1) ++ "_" ++ p.2.1 ++ "_" ++ toString p.2.2.1,
               p.2.2.2))
      (meterNameOut, best.2.2, debug)

/-! ### Viterbi disambiguation (`MeterEngine._viterbi_for_meter` and helpers) -/

/-- `_SyllableUnit` (the character-span fields, which no claim concerns, are
produced by the raw-text span aligner and are not tracked here). -/
structure SyllableUnit where
  text : String
  token_index : ℕ
  options : List (Char × ℚ)
  default_stress : Char
deriving DecidableEq, Repr

def defaultUnit : SyllableUnit := ⟨"", 0, [], 'U'⟩

/-- `dict(pairs).get(key, default)`: a Python dict built from a pair list keeps
the last binding of a duplicated key. -/
def dictGet (pairs : List (Char × ℚ)) (key : Char) (dflt : ℚ) : ℚ :=
  ((pairs.reverse).lookup key).getD dflt

/-- `MeterEngine._position_mismatch_extra`. -/
def positionMismatchExtra (footName : String) (templateIdx : ℕ) : ℚ :=
  if ¬ isBinaryFootName footName then 0
  else
    let footIdx := templateIdx / 2
    let inFootPos := templateIdx % 2
    if footName = "iambic" then
      if footIdx = 0 then IAMBIC_FIRST_FOOT_PENALTY
      else if inFootPos = 0 then IAMBIC_SPONDEE_PENALTY
      else IAMBIC_WEAK_STRONG_PENALTY
    else
      if footIdx = 0 then TROCHAIC_FIRST_FOOT_PENALTY
      else if inFootPos = 0 then TROCHAIC_SPONDEE_PENALTY
      else TROCHAIC_WEAK_STRONG_PENALTY

/-- `MeterEngine._mismatch_cost_at`. -/
def mismatchCostAt (footName : String) (templateIdx : ℕ) : ℚ :=
  let base : ℚ :=
    if templateIdx = 0 ∧ isBinaryFootName footName then BINARY_FIRST_POS_DISCOUNT
    else 1
  base + positionMismatchExtra footName templateIdx

/-- `MeterEngine._candidate_meters_for_syllables` (the range index `k`
stands for `feet - 1`, the loop running over `feet ∈ 1..6`). -/
def candidateMetersForSyllables (syllableCount : ℕ) : List (String × ℕ) :=
  footNames.flatMap (fun footName =>
    (List.range 6).filterMap (fun k =>
      if (syllableCount : ℤ) ∈ allowedSyllableCountsForMeter footName (k + 1) then
        some (footName, k + 1)
      else none))

/-- Guard of the delete transition in `_viterbi_for_meter`:
`allow_delete and foot_name == "iambic" and i < n and j == m`,
with `allow_delete = (n - m) > 0`. -/
def deleteEnabled (footName : String) (n m i j : ℕ) : Bool :=
  decide ((m : ℤ) < n) && footName == "iambic" && decide (i < n) && j == m

/-- Guard of the insert transition in `_viterbi_for_meter`:
`allow_insert and j < m`, then for anapestic feet only at `(i, j) = (0, 0)`
and for every other foot only at `i == n`, with `allow_insert = (n - m) < 0`. -/
def insertEnabled (footName : String) (n m i j : ℕ) : Bool :=
  decide ((n : ℤ) < m) && decide (j < m) &&
    (if footName == "anapestic" then i == 0 && j == 0 else i == n)

/-- Penalty of the delete transition: the feminine-ending discount applies
exactly when the absorbed syllable is the line's final one (in the source the
test is `j == m and i == n - 1 and delete_stress == "U"`, where `j == m` and
`delete_stress == "U"` always hold at that point). -/
def deletePenaltyAt (n m i j : ℕ) : ℚ :=
  if j = m ∧ i + 1 = n then FEMININE_ENDING_COST else LENGTH_MISMATCH_COST

/-- A cell of the Viterbi cost grid.  `cost = none` plays the role of the
`inf` sentinel; `prev` stores `(pi, pj, action, stress)` with the stress
as a character list (`[]` for the insert action's empty string). -/
structure VCell where
  cost : Option ℚ
  prev : Option (ℕ × ℕ × Char × List Char)
deriving DecidableEq, Repr

def emptyCell : VCell := ⟨none, none⟩

/-- The cost/back-pointer matrices `dp` and `prev` of `_viterbi_for_meter`,
fused cell-wise: row `i` has the cells `(i, 0) .. (i, m)`. -/
abbrev VGrid : Type := List (List VCell)

def gridGet (g : VGrid) (i j : ℕ) : VCell :=
  (g.getD i []).getD j emptyCell

def gridSet (g : VGrid) (i j : ℕ) (c : VCell) : VGrid :=
  g.set i ((g.getD i []).set j c)

/-- `[[inf] * (m+1) for _ in range(n+1)]` with `dp[0][0] = 0.0`. -/
def initGrid (n m : ℕ) : VGrid :=
  gridSet (List.replicate (n + 1) (List.replicate (m + 1) emptyCell)) 0 0
    ⟨some 0, none⟩

/-- Relax target cell `(i, j)` to `newCost` with back-pointer `pr` if that is a
strict improvement (`new_cost < dp[...]`, with an absent cost behaving as the
`inf` sentinel). -/
def relaxTo (g : VGrid) (i j : ℕ) (newCost : ℚ) (pr : ℕ × ℕ × Char × List Char) :
    VGrid :=
  match (gridGet g i j).cost with
  | none => gridSet g i j ⟨some newCost, some pr⟩
  | some old => if newCost < old then gridSet g i j ⟨some newCost, some pr⟩ else g

/-- The match block of `_viterbi_for_meter`'s inner loop: with `cur` the cost
at `(i, j)`, relax `(i+1, j+1)` through each stress option of syllable `i`
in order. -/
def stepMatch (sylls : List SyllableUnit) (footName : String)
    (template : List Char) (cur : ℚ) (i j : ℕ) (g : VGrid) : VGrid :=
  if i < sylls.length ∧ j < template.length then
    (sylls.getD i defaultUnit).options.foldl (fun g opt =>
      relaxTo g (i + 1) (j + 1)
        (cur + opt.2 +
          (if opt.1 = template.getD j ' ' then 0 else mismatchCostAt footName j))
        (i, j, 'M', [opt.1])) g
  else g

/-- The delete block: absorb syllable `i` as an unstressed extra at its
unstressed-option cost plus the delete penalty. -/
def stepDelete (sylls : List SyllableUnit) (footName : String)
    (template : List Char) (cur : ℚ) (i j : ℕ) (g : VGrid) : VGrid :=
  if deleteEnabled footName sylls.length template.length i j then
    relaxTo g (i + 1) j
      (cur + dictGet (sylls.getD i defaultUnit).options 'U' 0 +
        deletePenaltyAt sylls.length template.length i j)
      (i, j, 'D', ['U'])
  else g

/-- The insert block: consume one template position at the generic
length-mismatch cost. -/
def stepInsert (footName : String) (n m : ℕ) (cur : ℚ) (i j : ℕ)
    (g : VGrid) : VGrid :=
  if insertEnabled footName n m i j then
    relaxTo g i (j + 1) (cur + LENGTH_MISMATCH_COST) (i, j, 'I', [])
  else g

/-- One iteration of the inner loop of `_viterbi_for_meter`: process cell
`(i, j)`, relaxing its match, delete and insert successors in source order. -/
def stepCell (sylls : List SyllableUnit) (footName : String) (template : List Char)
    (g : VGrid) (i j : ℕ) : VGrid :=
  match (gridGet g i j).cost with
  | none => g
  | some cur =>
      stepInsert footName sylls.length template.length cur i j
        (stepDelete sylls footName template cur i j
          (stepMatch sylls footName template cur i j g))

/-- The fully relaxed grid: cells are processed in row-major order, exactly as
the source's nested `for i / for j` loops (every relaxation writes only to a
cell visited strictly later, so sequential folding reproduces the in-place
mutation). -/
def viterbiGrid (sylls : List SyllableUnit) (footName : String)
    (template : List Char) : VGrid :=
  (List.range (sylls.length + 1)).foldl (fun g i =>
    (List.range (template.length + 1)).foldl (fun g j =>
      stepCell sylls footName template g i j) g)
    (initGrid sylls.length template.length)

/-- Back-tracking loop of `_viterbi_for_meter`.  The source's `while` loop
terminates because every stored back-pointer strictly decreases `i + j`; the
fuel argument (instantiated with `n + m`) bounds the same number of steps. -/
def backtrackAux (g : VGrid) : ℕ → ℕ → ℕ → List Char
  | 0, _, _ => []
  | fuel + 1, i, j =>
      if i = 0 ∧ j = 0 then []
      else
        match (gridGet g i j).prev with
        | none => []
        | some (pi, pj, action, stress) =>
            backtrackAux g fuel pi pj ++
              (if action = 'M' ∨ action = 'D' then stress else [])

/-- `MeterEngine._viterbi_for_meter`.  The cost is `none` where the source
returns `float("inf")`. -/
def viterbiForMeter (sylls : List SyllableUnit) (footName : String) (feet : ℕ) :
    List Char × Option ℚ :=
  let template := templateForMeter footName feet
  let n := sylls.length
  let m := template.length
  let fallback := sylls.map (fun u => u.default_stress)
  if ¬ ((n : ℤ) - m = -1 ∨ (n : ℤ) - m = 0 ∨ (n : ℤ) - m = 1) then (fallback, none)
  else
    let g := viterbiGrid sylls footName template
    match (gridGet g n m).cost with
    | none => (fallback, none)
    | some finalCost =>
        let pattern := backtrackAux g (n + m) n m
        let pattern := if pattern.length ≠ n then fallback else pattern
        (pattern, some finalCost)

/-! ### Best meter for ambiguous syllables (`MeterEngine._best_meter_for_ambiguous_syllables`) -/

/-- The optional poem-level context passed to `analyze_line` (the
`dominant_meter` / `dominant_strength` entries of the context dict;
`none` in a field models an absent or non-conforming value). -/
structure CtxInput where
  dominant_meter : Option String
  dominant_strength : Option ℚ

/-- `MeterEngine._coerce_context`. -/
def coerceContext : Option CtxInput → String × ℚ
  | none => ("", 0)
  | some ctx =>
      let meter := strLower (strTrim (ctx.dominant_meter.getD ""))
      let strength := ctx.dominant_strength.getD 0
      let strengthF := max 0 (min 1 strength)
      if meter = "" then ("", 0)
      else if (parseMeterName meter).isNone then ("", 0)
      else (meter, strengthF)

/-- `MeterEngine._options_for_syllable`. -/
def optionsForSyllable (wordText : String) (isMonosyllable : Bool)
    (lexicalStressed : Bool) : List (Char × ℚ) :=
  if isMonosyllable ∧ wordText ∈ UNSTRESSED_MONOSYLLABLES then
    [('U', 0), ('S', FUNCTION_TO_STRONG_FLIP_COST)]
  else if isMonosyllable ∧ wordText ∈ STRESSED_MONOSYLLABLES then
    [('S', 0), ('U', STRONG_TO_WEAK_FLIP_COST)]
  else if lexicalStressed then
    [('S', 0), ('U', if isMonosyllable then MONO_FLIP_COST else POLY_FLIP_COST)]
  else
    [('U', 0), ('S', if isMonosyllable then MONO_FLIP_COST else POLY_FLIP_COST)]

/-- `min(options, key=lambda option: (option[1], option[0]))`: the first
option with lexicographically minimal `(cost, symbol)` key. -/
def pyMinOption (options : List (Char × ℚ)) : Char :=
  match options with
  | [] => 'U'
  | o :: rest =>
      (rest.foldl (fun acc o' =>
        if o'.2 < acc.2 ∨ (o'.2 = acc.2 ∧ o'.1 < acc.1) then o' else acc) o).1

/-- `_MeterPath`. -/
structure MeterPath where
  foot_name : String
  feet : ℕ
  base_score : ℚ
  adjusted_score : ℚ
  cost : Option ℚ
  pattern : List Char
  context_bonus : ℚ
deriving DecidableEq, Repr

/-- The Viterbi-derived alignment score for one candidate, before priors:
`max(0.0, 1.0 - (cost / normalizer))` (`0` when the cost is the `inf`
sentinel, since `1 - inf/normalizer` clamps to `0`). -/
def alignScoreRaw (pattern : List Char) (template : List Char)
    (cost : Option ℚ) : ℚ :=
  let normalizer : ℚ := max (max pattern.length template.length) 1
  match cost with
  | none => 0
  | some c => max 0 (1 - c / normalizer)

/-- One candidate's `_MeterPath` as built inside
`_best_meter_for_ambiguous_syllables`. -/
def meterPathFor (sylls : List SyllableUnit) (lexicalPattern : List Char)
    (contextMeter : String) (contextBonusMax : ℚ) (footName : String)
    (feet : ℕ) : MeterPath :=
  let pc := viterbiForMeter sylls footName feet
  let template := templateForMeter footName feet
  let viterbiScore := alignScoreRaw pc.1 template pc.2
  let viterbiScore := applyMeterLengthPriors viterbiScore footName feet pc.1.length
  let lexicalScore := scorePatternForMeter lexicalPattern footName feet
  let baseScore := (50/100 : ℚ) * viterbiScore + (50/100 : ℚ) * lexicalScore
  let meterName := footName ++ " " ++ lineNameByFeet feet
  let contextBonus := if meterName = contextMeter then contextBonusMax else 0
  ⟨footName, feet, baseScore, max 0 (min 1 (baseScore + contextBonus)),
   pc.2, pc.1, contextBonus⟩

/-- The candidate paths of `_best_meter_for_ambiguous_syllables`
(`if not pattern: continue` skips a path whose pattern is empty). -/
def meterPathsFor (sylls : List SyllableUnit) (contextMeter : String)
    (contextBonusMax : ℚ) : List MeterPath :=
  let lexicalPattern := sylls.map (fun u => u.default_stress)
  (candidateMetersForSyllables sylls.length).filterMap (fun c =>
    let p := meterPathFor sylls lexicalPattern contextMeter contextBonusMax c.1 c.2
    if p.pattern = [] then none else some p)

def dummyPath : MeterPath := ⟨"", 0, 0, 0, none, [], 0⟩

/-- The enumerated top-candidate debug entries (`top{i}_{foot}_{feet}` and
`..._base`, `start=1`). -/
def topPathsDebug (sorted : List MeterPath) : List (String × ℚ) :=
  ((sorted.take 4).enum).flatMap (fun p =>
    let key := "top" ++ toString (p.1 + 1) ++ "_" ++ p.2.foot_name ++ "_"
      ++ toString p.2.feet
    [(key, p.2.adjusted_score), (key ++ "_base", p.2.base_score)])

/-- `MeterEngine._best_meter_for_ambiguous_syllables`.  Returns
`(meter_name, best adjusted score, debug assoc list, resolved pattern)`. -/
def bestMeterForAmbiguousSyllables (sylls : List SyllableUnit)
    (context : Option CtxInput) : String × ℚ × List (String × ℚ) × List Char :=
  if sylls = [] then ("", 0, [("margin", 0)], [])
  else
    let ctx := coerceContext context
    let contextBonusMax := CONTEXT_PRIOR_MAX_BONUS * ctx.2
    let nSyllables := sylls.length
    let meterPaths := meterPathsFor sylls ctx.1 contextBonusMax
    if meterPaths = [] then ("", 0, [("margin", 0)], sylls.map (fun u => u.default_stress))
    else
      let sorted := meterPaths.mergeSort (fun a b =>
        decide (b.adjusted_score ≤ a.adjusted_score))
      let best0 := sorted.headD dummyPath
      let target : Option ℕ :=
        if 10 ≤ nSyllables ∧ nSyllables ≤ 11 then some 5
        else if 12 ≤ nSyllables ∧ nSyllables ≤ 13 then some 6
        else none
      let biased : MeterPath × Bool :=
        match target with
        | none => (best0, false)
        | some t =>
            match sorted.find? (fun c => c.foot_name == "iambic" && c.feet == t) with
            | none => (best0, false)
            | some cand =>
                if cand ≠ best0 ∧
                    cand.adjusted_score ≥ best0.adjusted_score - IAMBIC_BIAS_THRESHOLD
                then (cand, true)
                else (best0, false)
      let best := biased.1
      let secondScore := sorted.foldl (fun acc c =>
        if c.foot_name = best.foot_name ∧ c.feet = best.feet then acc
        else max acc c.adjusted_score) 0
      let margin := max 0 (best.adjusted_score - secondScore)
      let meterNameOut := best.foot_name ++ " " ++ lineNameByFeet best.feet
      let debug := [("margin", margin), ("second_score", secondScore),
                    ("iambic_bias", if biased.2 then (1 : ℚ) else 0),
                    ("context_strength", ctx.2),
                    ("context_bonus", best.context_bonus)]
        ++ topPathsDebug sorted
      (meterNameOut, best.adjusted_score, debug, best.pattern)

/-! ### `MeterEngine.analyze_line`

The `prosodic` oracle segments the raw line into word tokens, each carrying
syllables with a lexical stress flag; it is external to the repository, so its
output is the input at this boundary.  The source's recovery of each word's
character span in the raw line feeds only the per-syllable span fields, which
no claim concerns. -/

structure OracleSyllable where
  text : String
  is_stressed : Bool
deriving DecidableEq

structure OracleWord where
  txt : String
  is_punc : Bool
  syllables : List OracleSyllable

/-- `word_text = token_text.strip().lower().replace("’", "'").strip("'")`. -/
def normalizeWordText (tokenText : String) : String :=
  let cs := (charsTrim tokenText.data).map Char.toLower
  let cs := cs.map (fun c => if c = '’' then '\'' else c)
  ⟨((cs.dropWhile (fun c => c = '\'')).reverse.dropWhile
      (fun c => c = '\'')).reverse⟩

/-- One processed word of `analyze_line`'s syllable-construction loop. -/
structure ProcessedWord where
  token_index : ℕ
  units : List SyllableUnit
  default_pattern : List Char
deriving Repr

/-- The syllable-construction loop of `analyze_line`, carrying `token_cursor`.
Punctuation word-tokens and words without syllables are skipped without
consuming a token.  When the cursor is within the token list the token's text
is that token; past the end, the source recovers the word's text by a
positional search in the raw line, which yields the word's own lower-cased
text. -/
def processWordsGo (tokens : List String) : ℕ → List OracleWord → List ProcessedWord
  | _, [] => []
  | cursor, w :: ws =>
      if w.is_punc then processWordsGo tokens cursor ws
      else if w.syllables = [] then processWordsGo tokens cursor ws
      else
        let tokenIndex := min cursor (tokens.length - 1)
        let tc : String × ℕ :=
          if cursor < tokens.length then (tokens.getD cursor "", cursor + 1)
          else (strLower w.txt, cursor)
        let wordText := normalizeWordText tc.1
        let isMono := w.syllables.length = 1
        let units := w.syllables.map (fun syl =>
          let options := optionsForSyllable wordText isMono syl.is_stressed
          SyllableUnit.mk (strLower syl.text) tokenIndex options (pyMinOption options))
        let defaultPattern := units.map (fun u => u.default_stress)
        ⟨tokenIndex, units,
         if defaultPattern = [] then ['U'] else defaultPattern⟩
          :: processWordsGo tokens tc.2 ws

def processWords (tokens : List String) (words : List OracleWord) :
    List ProcessedWord :=
  processWordsGo tokens 0 words

/-- The resolved per-token sub-pattern accumulation of `analyze_line`: each
syllable's output character is appended to the slot named by its owning token
index (out-of-range indices are dropped, as in the source's bounds check). -/
def distributeToSlots (numSlots : ℕ) (assignments : List (ℕ × Char)) :
    List (List Char) :=
  assignments.foldl (fun slots a =>
    if a.1 < slots.length then slots.set a.1 ((slots.getD a.1 []) ++ [a.2])
    else slots)
    (List.replicate numSlots [])

/-- `round(x / 2)` for a natural `x`, with Python's round-half-to-even. -/
def pyRoundHalf (x : ℕ) : ℕ :=
  if x % 2 = 0 then x / 2
  else if (x / 2) % 2 = 0 then x / 2 else x / 2 + 1

/-- `LineAnalysis` (the per-syllable character-span field is omitted: it is
raw-text presentation data produced by the span aligner, outside every claim). -/
structure LineAnalysis where
  line_no : ℤ
  source_text : String
  tokens : List String
  stress_pattern : List Char
  meter_name : String
  feet_count : ℕ
  confidence : ℚ
  debug_scores : List (String × ℚ)
  token_patterns : List (List Char)
  syllable_positions : List (String × Bool)
deriving DecidableEq

/-- The mid-analysis fallback `if len(resolved_pattern) != len(syllables):
resolved_pattern = "".join(unit.default_stress ...)`. -/
def resolvedOf (sylls : List SyllableUnit) (r2 : List Char) : List Char :=
  if r2.length ≠ sylls.length then sylls.map (fun u => u.default_stress)
  else r2

/-- The per-syllable output-character loop of `analyze_line` (meter-aware
flips reverted when the flip cost is high and no strong context prior). -/
def outputPatternOf (sylls : List SyllableUnit) (resolved : List Char)
    (contextBonus : ℚ) : List Char :=
  (List.range sylls.length).map (fun idx =>
    let unit := sylls.getD idx defaultUnit
    let chosen := resolved.getD idx 'U'
    if chosen ≠ unit.default_stress then
      if 1 ≤ dictGet unit.options chosen POLY_FLIP_COST ∧
          contextBonus < 8/100 then unit.default_stress
      else chosen
    else chosen)

/-- The resolved per-token sub-pattern list of `analyze_line`: slot
distribution followed by the `pat or "U"` padding. -/
def tokenPatternsOutOf (numSlots : ℕ) (sylls : List SyllableUnit)
    (outputPattern : List Char) : List (List Char) :=
  (distributeToSlots numSlots
      ((sylls.map (fun u => u.token_index)).zip outputPattern)).map
    (fun p => if p = [] then ['U'] else p)

/-- `MeterEngine.analyze_line`, from the oracle boundary on: `tokens` is the
`TOKEN_RE` token list of the raw line and `words` the oracle's word tokens. -/
def analyzeLine (lineText : String) (tokens : List String)
    (words : List OracleWord) (lineNo : ℤ) (context : Option CtxInput) :
    Option LineAnalysis :=
  if strTrim lineText = "" then none
  else if tokens = [] then none
  else
    let processed := processWords tokens words
    let sylls := processed.flatMap (fun pw => pw.units)
    if sylls = [] then none
    else
      let r := bestMeterForAmbiguousSyllables sylls context
      let contextBonus := (r.2.2.1.lookup "context_bonus").getD 0
      let outputPattern :=
        outputPatternOf sylls (resolvedOf sylls r.2.2.2) contextBonus
      let syllablePositions := (List.range sylls.length).map (fun idx =>
        ((sylls.getD idx defaultUnit).text, outputPattern.getD idx 'U' == 'S'))
      let tokenPatternsOut :=
        tokenPatternsOutOf processed.length sylls outputPattern
      let stressPattern := tokenPatternsOut.flatten
      let feetCount :=
        match parseMeterName r.1 with
        | some fp => fp.2
        | none => max 1 (pyRoundHalf stressPattern.length)
      let confidence := max 0 (min 1 r.2.1)
      some ⟨lineNo, lineText, tokens, stressPattern, r.1, feetCount,
            confidence, r.2.2.1, tokenPatternsOut, syllablePositions⟩

/-! ### LLM refinement validator/repairer (`metermeter/llm_refiner.py`) -/

/-- The filtered stress symbols of a raw sub-pattern:
`p = raw_pat.strip().upper()`, keeping only `U`/`S` characters. -/
def filteredStress (rawPat : String) : List Char :=
  ((charsTrim rawPat.data).map Char.toUpper).filter (fun c => c = 'U' ∨ c = 'S')

/-- A baseline pattern usable as a length scaffold:
`baseline_pat and len(baseline_pat) == expected_len and STRESS_RE.match(baseline_pat)`. -/
def validScaffold (baselinePat : List Char) (expectedLen : ℕ) : Prop :=
  baselinePat ≠ [] ∧ baselinePat.length = expectedLen ∧
    ∀ c ∈ baselinePat, c = 'U' ∨ c = 'S'

instance (baselinePat : List Char) (expectedLen : ℕ) :
    Decidable (validScaffold baselinePat expectedLen) := by
  unfold validScaffold; infer_instance

/-- `LLMRefiner._normalize_token_pattern` (`filteredStress rawPat` is the
source's local `p`). -/
def normalizeTokenPattern (rawPat : String) (expectedLen : ℕ)
    (baselinePat : List Char) : List Char :=
  if expectedLen = 0 then []
  else if filteredStress rawPat = [] then []
  else if (filteredStress rawPat).length = expectedLen then filteredStress rawPat
  else if validScaffold baselinePat expectedLen then baselinePat
  else if (filteredStress rawPat).length = 1 then
    if filteredStress rawPat = ['S'] then
      List.replicate (expectedLen - 1) 'U' ++ ['S']
    else List.replicate expectedLen 'U'
  else []

/-- `LLMRefiner._split_stress_by_baseline` (from the repository's top-level
`llm_refiner.py`): re-split a whole-line stress string into token-sized
chunks, using the baseline token patterns as the width scaffold. -/
def splitStressByBaseline (stressPattern : List Char)
    (baselineTokenPatterns : List (List Char)) : List (List Char) :=
  if baselineTokenPatterns = [] then []
  else
    let rec go (idx : ℕ) : List (List Char) → Option (List (List Char))
      | [] => if idx = stressPattern.length then some [] else none
      | item :: rest =>
          if item = [] then none
          else
            let width := item.length
            if stressPattern.length < idx + width then none
            else
              match go (idx + width) rest with
              | none => none
              | some out => some ((stressPattern.drop idx).take width :: out)
    (go 0 baselineTokenPatterns).getD []

/-- The error raised when a whole batch fails validation; the raw payload is
dumped to the debug path before raising. -/
structure BatchError where
  reason : String
  debug_dump_written : Bool
deriving DecidableEq, Repr

/-- The individual-retry stage of `LLMRefiner.refine_lines` (lines following
the batch validation loop): when some but not all of the batch's lines
validated, each missing line is retried once through a single-line call —
abstracted as `retry`, with `none` for a retry that fails or raises — and its
result, if any, is added to the accepted mapping.  Returns the final mapping
together with the list of line numbers that were retried. -/
def retryMissing {R : Type} (baselines : List ℤ) (validated : List (ℤ × R))
    (retry : ℤ → Option R) : List (ℤ × R) × List ℤ :=
  if 0 < validated.length ∧ validated.length < baselines.length then
    ((baselines.filter (fun b => (validated.lookup b).isNone)).foldl (fun out b =>
        match retry b with
        | some r => out ++ [(b, r)]
        | none => out) validated,
     baselines.filter (fun b => (validated.lookup b).isNone))
  else (validated, [])

/-- The outcome of `LLMRefiner.refine_lines` as a function of the batch's
per-line validation results: if the final mapping is empty, a debug dump is
written and `llm_invalid_response: results_failed_validation` is raised. -/
def refineLinesOutcome {R : Type} (baselines : List ℤ) (validated : List (ℤ × R))
    (retry : ℤ → Option R) : Except BatchError (List (ℤ × R)) :=
  if (retryMissing baselines validated retry).1.isEmpty then
    .error ⟨"llm_invalid_response: results_failed_validation", true⟩
  else .ok (retryMissing baselines validated retry).1

/-! ### Scan CLI (`metermeter_cli.py`): override arbitration and error policy -/

def RESCORE_MIN_SCORE : ℚ := 72/100
def RESCORE_MIN_MARGIN : ℚ := 10/100
def IAMBIC_GUARD_MIN_SCORE : ℚ := 68/100
def IAMBIC_GUARD_MIN_MARGIN : ℚ := 3/100
def IAMBIC_GUARD_MAX_CONF : ℚ := 75/100
def BASELINE_GUARD_CONF_MIN : ℚ := 75/100
def BASELINE_GUARD_LLM_MAX_CONF : ℚ := 85/100
def DOMINANT_RATIO_MIN : ℚ := 75/100
def DOMINANT_MIN_LINES : ℕ := 6
def DOMINANT_LOW_CONF : ℚ := 65/100
def DOMINANT_SCORE_DELTA : ℚ := 8/100

/-- The keyword bundle passed to every override rule (`override_ctx`). -/
structure OverrideContext where
  meter_name : String
  conf : ℚ
  pattern_best_meter : String
  pattern_best_score : ℚ
  pattern_best_margin : ℚ
  stress_pattern : String
  baseline_meter : String
  baseline_conf : ℚ
  dominant_meter : String
  dominant_ratio : ℚ
  dominant_line_count : ℕ

def OverrideRule : Type := OverrideContext → Option (String × ℚ × String)

/-- `_try_pattern_rescore`. -/
def tryPatternRescore : OverrideRule := fun ctx =>
  if ctx.pattern_best_meter ≠ "" ∧ ctx.pattern_best_meter ≠ ctx.meter_name ∧
      ctx.pattern_best_score ≥ RESCORE_MIN_SCORE ∧
      ctx.pattern_best_margin ≥ RESCORE_MIN_MARGIN then
    some (ctx.pattern_best_meter, min ctx.conf ctx.pattern_best_score,
          "pattern_rescore")
  else none

/-- `_try_iambic_guard`. -/
def tryIambicGuard : OverrideRule := fun ctx =>
  if ctx.pattern_best_meter = "iambic pentameter" ∧
      ctx.meter_name ≠ ctx.pattern_best_meter ∧
      9 ≤ ctx.stress_pattern.length ∧ ctx.stress_pattern.length ≤ 11 ∧
      ctx.pattern_best_score ≥ IAMBIC_GUARD_MIN_SCORE ∧
      ctx.pattern_best_margin ≥ IAMBIC_GUARD_MIN_MARGIN ∧
      ctx.conf ≤ IAMBIC_GUARD_MAX_CONF then
    some (ctx.pattern_best_meter, min ctx.conf ctx.pattern_best_score,
          "iambic_guard")
  else none

/-- `_try_baseline_guard`. -/
def tryBaselineGuard : OverrideRule := fun ctx =>
  if ctx.baseline_meter = "iambic pentameter" ∧
      ctx.meter_name ≠ ctx.baseline_meter ∧
      9 ≤ ctx.stress_pattern.length ∧ ctx.stress_pattern.length ≤ 11 ∧
      ctx.baseline_conf ≥ BASELINE_GUARD_CONF_MIN ∧
      ctx.conf ≤ BASELINE_GUARD_LLM_MAX_CONF then
    some (ctx.baseline_meter, min ctx.conf ctx.baseline_conf, "baseline_guard")
  else none

/-- `_try_dominant_smoothing`. -/
def tryDominantSmoothing : OverrideRule := fun ctx =>
  if ¬ (ctx.dominant_meter ≠ "" ∧ ctx.dominant_ratio ≥ DOMINANT_RATIO_MIN ∧
        ctx.dominant_line_count ≥ DOMINANT_MIN_LINES ∧
        ctx.meter_name ≠ ctx.dominant_meter) then none
  else
    match scoreStressPatternForMeter ctx.stress_pattern ctx.dominant_meter,
          scoreStressPatternForMeter ctx.stress_pattern ctx.meter_name with
    | some domScore, some curScore =>
        if ctx.conf ≤ DOMINANT_LOW_CONF ∧ domScore ≥ curScore + DOMINANT_SCORE_DELTA
        then some (ctx.dominant_meter, min ctx.conf domScore, "dominant_smoothing")
        else none
    | _, _ => none

/-- `_METER_OVERRIDES`: the override rules in fixed priority order. -/
def METER_OVERRIDES : List OverrideRule :=
  [tryPatternRescore, tryIambicGuard, tryBaselineGuard, tryDominantSmoothing]

/-- The application loop over `_METER_OVERRIDES`: the first rule returning a
result wins and the loop breaks; later rules are not evaluated. -/
def applyOverrides : List OverrideRule → OverrideContext →
    Option (String × ℚ × String)
  | [], _ => none
  | rule :: rest, ctx =>
      match rule ctx with
      | some res => some res
      | none => applyOverrides rest ctx

/-- The `llm` configuration block read by `main` (string fields are the raw
configured values; the source strips them before testing). -/
structure LlmCfg where
  enabled : Bool
  endpoint : String
  model : String
  max_lines_per_scan : ℤ

/-- The outcome of the `refiner.refine_lines(...)` call inside `main`'s `try`
block: an exception message, or the returned mapping. -/
def RefineOutcome (R : Type) : Type := Except String (List (ℤ × R))

/-- `error_msg` as computed by `main` (lines deciding `llm_disabled`,
`llm_not_configured`, and the refine `try`/`except`). -/
def scanErrorMsg {R : Type} (cfg : LlmCfg) (analysesEmpty : Bool)
    (refineOutcome : RefineOutcome R) : Option String :=
  if ¬ cfg.enabled then some "llm_disabled"
  else if strTrim cfg.endpoint = "" ∨ strTrim cfg.model = "" then
    some "llm_not_configured: endpoint/model required"
  else if cfg.max_lines_per_scan ≤ 0 then
    some "llm_not_configured: max_lines_per_scan must be > 0"
  else if analysesEmpty then none
  else
    match refineOutcome with
    | .error msg => some (if msg = "" then "llm_refine_failed" else msg)
    | .ok refined => if refined.isEmpty then some "llm_invalid_or_empty_response" else none

/-- One entry of the scan response's `results`, as assembled by `main`'s
result loop (span data, which no claim concerns, is omitted). -/
structure ScanResult where
  lnum : ℤ
  meter_name : String
  confidence : ℚ
  token_patterns : List String
  meter_overridden : Bool
  override_reason : String

/-- A validated per-line LLM refinement as consumed by `main`. -/
structure CliRefined where
  meter_name : String
  confidence : ℚ
  token_patterns : List String

/-- The deterministic per-line baseline consumed by `main`'s result loop. -/
structure CliAnalysis where
  line_no : ℤ
  meter_name : String
  confidence : ℚ

/-- One iteration of `main`'s result loop for a line with a refinement:
deterministic pattern re-scoring, then the override chain. -/
def buildScanResult (dominantMeter : String) (dominantRatioV : ℚ)
    (dominantLineCount : ℕ) (a : CliAnalysis) (r : CliRefined) : ScanResult :=
  let stressPattern := String.join r.token_patterns
  let pb := bestMeterForStressPattern stressPattern
  let patternBestMargin := (pb.2.2.lookup "margin").getD 0
  let ctx : OverrideContext :=
    ⟨r.meter_name, r.confidence, pb.1, pb.2.1, patternBestMargin,
     stressPattern, strLower (strTrim a.meter_name), a.confidence,
     dominantMeter, dominantRatioV, dominantLineCount⟩
  match applyOverrides METER_OVERRIDES ctx with
  | some res => ⟨a.line_no, res.1, res.2.1, r.token_patterns, true, res.2.2⟩
  | none => ⟨a.line_no, r.meter_name, r.confidence, r.token_patterns, false, ""⟩

/-- `main`'s result loop: when `error_msg` is set every line is skipped, so
`results` is empty; otherwise a result is built for each analyzed line that
has a refinement. -/
def scanResults (errorMsg : Option String) (analyses : List CliAnalysis)
    (refined : List (ℤ × CliRefined)) (dominantMeter : String)
    (dominantRatioV : ℚ) (dominantLineCount : ℕ) : List ScanResult :=
  analyses.filterMap (fun a =>
    if errorMsg.isSome then none
    else
      match refined.lookup a.line_no with
      | none => none
      | some r => some (buildScanResult dominantMeter dominantRatioV
          dominantLineCount a r))

/-- Modelled from the spec: the editor-side caller of the scan CLI is not
part of the sources under verification; per the specification it keeps the
deterministic verdict and surfaces the scan error string as the reason that
refinement did not apply whenever the response carries `error`. -/
def callerVisibleOutcome (deterministicVerdict : CliAnalysis)
    (responseError : Option String) : CliAnalysis × Option String :=
  (deterministicVerdict, responseError)

/-! ### General helper lemmas -/

theorem foldl_inv {α β : Type} {P : α → Prop} (step : α → β → α)
    (h : ∀ a b, P a → P (step a b)) :
    ∀ (l : List β) (a : α), P a → P (l.foldl step a) := by
  intro l
  induction l with
  | nil => intro a ha; simpa using ha
  | cons x xs ih => intro a ha; simpa using ih (step a x) (h a x ha)

theorem getD_mem_or_eq {α : Type} : ∀ (l : List α) (n : ℕ) (d : α),
    l.getD n d ∈ l ∨ l.getD n d = d := by
  intro l
  induction l with
  | nil => intro n d; simp
  | cons x xs ih =>
      intro n d
      cases n with
      | zero =>
          left
          rw [List.getD_cons_zero]
          exact List.mem_cons_self ..
      | succ k =>
          rw [List.getD_cons_succ]
          rcases ih k d with h | h
          · exact Or.inl (List.mem_cons_of_mem _ h)
          · exact Or.inr h

theorem lookup_some_mem {α β : Type} [BEq α] [LawfulBEq α] {k : α} {v : β} :
    ∀ {l : List (α × β)}, l.lookup k = some v → (k, v) ∈ l := by
  intro l
  induction l with
  | nil => intro h; exact Option.noConfusion h
  | cons p rest ih =>
      obtain ⟨pk, pv⟩ := p
      intro h
      rw [List.lookup] at h
      cases hk : (k == pk) with
      | true =>
          rw [hk] at h
          have hkv : k = pk := eq_of_beq hk
          have hv : pv = v := Option.some.inj h
          rw [hkv, ← hv]
          exact List.mem_cons_self ..
      | false =>
          rw [hk] at h
          exact List.mem_cons_of_mem _ (ih h)

theorem lookup_append_left {α β : Type} [BEq α] [LawfulBEq α] {k : α} {v : β} :
    ∀ {l₁ : List (α × β)} (l₂ : List (α × β)), l₁.lookup k = some v →
      (l₁ ++ l₂).lookup k = some v := by
  intro l₁
  induction l₁ with
  | nil => intro l₂ h; exact Option.noConfusion h
  | cons p rest ih =>
      obtain ⟨pk, pv⟩ := p
      intro l₂ h
      rw [List.lookup] at h
      rw [List.cons_append, List.lookup]
      cases hk : (k == pk) with
      | true => rw [hk] at h; exact h
      | false => rw [hk] at h; exact ih l₂ h

theorem lookup_eq_none_of_no_key {α β : Type} [BEq α] [LawfulBEq α] {k : α} :
    ∀ {l : List (α × β)}, (∀ p ∈ l, p.1 ≠ k) → l.lookup k = none := by
  intro l
  induction l with
  | nil => intro _; rfl
  | cons p rest ih =>
      obtain ⟨pk, pv⟩ := p
      intro h
      rw [List.lookup]
      have hk : (k == pk) = false := by
        have hpk := h (pk, pv) (List.mem_cons_self ..)
        exact beq_eq_false_iff_ne.mpr (Ne.symm hpk)
      rw [hk]
      exact ih (fun q hq => h q (List.mem_cons_of_mem _ hq))

theorem lookup_append_none {α β : Type} [BEq α] [LawfulBEq α] {k : α}
    {l₂ : List (α × β)} (h₂ : l₂.lookup k = none) :
    ∀ {l₁ : List (α × β)}, l₁.lookup k = none → (l₁ ++ l₂).lookup k = none := by
  intro l₁
  induction l₁ with
  | nil => intro _; simpa using h₂
  | cons p rest ih =>
      obtain ⟨pk, pv⟩ := p
      intro h₁
      rw [List.lookup] at h₁
      rw [List.cons_append, List.lookup]
      cases hk : (k == pk) with
      | true => rw [hk] at h₁; exact Option.noConfusion h₁
      | false => rw [hk] at h₁; exact ih h₁

theorem headD_mergeSort_max {α : Type} (key : α → ℚ) (l : List α) (d : α)
    (hl : l ≠ []) :
    (l.mergeSort (fun a b => decide (key b ≤ key a))).headD d ∈ l ∧
    ∀ x ∈ l, key x ≤ key ((l.mergeSort (fun a b => decide (key b ≤ key a))).headD d) := by
  set le : α → α → Bool := fun a b => decide (key b ≤ key a) with hle
  have hperm := List.mergeSort_perm l le
  have hsort := @List.sorted_mergeSort α le
    (fun a b c hab hbc => by
      simp only [hle, decide_eq_true_eq] at hab hbc ⊢; exact le_trans hbc hab)
    (fun a b => by
      simp only [hle, Bool.or_eq_true, decide_eq_true_eq]; exact le_total (key b) (key a))
    l
  cases hs : l.mergeSort le with
  | nil =>
      exact absurd (hperm.symm.length_eq ▸ congrArg List.length hs) (by
        simpa using (fun h => hl (List.length_eq_zero.mp h)))
  | cons h t =>
      rw [hs] at hperm hsort
      constructor
      · exact hperm.subset (by simp)
      · intro x hx
        have hx' : x ∈ h :: t := hperm.mem_iff.mpr hx
        rcases List.mem_cons.mp hx' with rfl | hxt
        · simp
        · have := (List.pairwise_cons.mp hsort).1 x hxt
          simp only [hle, decide_eq_true_eq] at this
          simpa using this

/-! ### Claim theorems -/

/-- C5: the override arbitrator applies pattern-rescore, iambic-guard,
baseline-guard, dominant-smoothing in that fixed order and returns at the
first rule that produces a result, evaluating no later rule; for a context
with pattern-best meter "iambic pentameter", score 0.85, margin 0.15 and
current meter "trochaic tetrameter", the pattern-rescore rule fires with
confidence `min(conf, 0.85)` and reason `pattern_rescore`. -/
theorem override_order_first_match_scenario :
    (∀ (rule : OverrideRule) (rest : List OverrideRule) (ctx : OverrideContext)
        (res : String × ℚ × String), rule ctx = some res →
        applyOverrides (rule :: rest) ctx = some res)
    ∧ METER_OVERRIDES =
        [tryPatternRescore, tryIambicGuard, tryBaselineGuard, tryDominantSmoothing]
    ∧ (∀ ctx : OverrideContext,
        ctx.pattern_best_meter = "iambic pentameter" →
        ctx.pattern_best_score = 85/100 →
        ctx.pattern_best_margin = 15/100 →
        ctx.meter_name = "trochaic tetrameter" →
        applyOverrides METER_OVERRIDES ctx =
          some ("iambic pentameter", min ctx.conf (85/100), "pattern_rescore")) := by
  refine ⟨?_, rfl, ?_⟩
  · intro rule rest ctx res h
    simp [applyOverrides, h]
  · intro ctx h1 h2 h3 h4
    have hfire : tryPatternRescore ctx =
        some ("iambic pentameter", min ctx.conf (85/100), "pattern_rescore") := by
      unfold tryPatternRescore
      rw [h1, h2, h3, h4]
      exact if_pos ⟨by decide, by decide,
        by norm_num [RESCORE_MIN_SCORE], by norm_num [RESCORE_MIN_MARGIN]⟩
    simp [METER_OVERRIDES, applyOverrides, hfire]

/-- Witness for C5 at a concrete context. -/
theorem override_order_first_match_scenario_witness :
    applyOverrides METER_OVERRIDES
      ⟨"trochaic tetrameter", 9/10, "iambic pentameter", 85/100, 15/100,
       "USUSUSUSUS", "", 0, "", 0, 0⟩ =
      some ("iambic pentameter", min (9/10 : ℚ) (85/100), "pattern_rescore") :=
  override_order_first_match_scenario.2.2 _ rfl rfl rfl rfl

/-- C6: every override rule that fires returns confidence equal to
`min(current confidence, the evidence score justifying the override)`, hence
never above the input confidence. -/
theorem override_confidence_monotone :
    (∀ rule ∈ METER_OVERRIDES, ∀ (ctx : OverrideContext) (m : String) (c : ℚ)
        (tag : String), rule ctx = some (m, c, tag) → c ≤ ctx.conf)
    ∧ (∀ (ctx : OverrideContext) m c tag, tryPatternRescore ctx = some (m, c, tag) →
        c = min ctx.conf ctx.pattern_best_score)
    ∧ (∀ (ctx : OverrideContext) m c tag, tryIambicGuard ctx = some (m, c, tag) →
        c = min ctx.conf ctx.pattern_best_score)
    ∧ (∀ (ctx : OverrideContext) m c tag, tryBaselineGuard ctx = some (m, c, tag) →
        c = min ctx.conf ctx.baseline_conf)
    ∧ (∀ (ctx : OverrideContext) m c tag, tryDominantSmoothing ctx = some (m, c, tag) →
        ∃ ds, scoreStressPatternForMeter ctx.stress_pattern ctx.dominant_meter = some ds
          ∧ c = min ctx.conf ds) := by
  have hp : ∀ (ctx : OverrideContext) m c tag,
      tryPatternRescore ctx = some (m, c, tag) → c = min ctx.conf ctx.pattern_best_score := by
    intro ctx m c tag h
    unfold tryPatternRescore at h
    split at h
    · simp only [Option.some.injEq, Prod.mk.injEq] at h
      exact h.2.1.symm
    · exact Option.noConfusion h
  have hi : ∀ (ctx : OverrideContext) m c tag,
      tryIambicGuard ctx = some (m, c, tag) → c = min ctx.conf ctx.pattern_best_score := by
    intro ctx m c tag h
    unfold tryIambicGuard at h
    split at h
    · simp only [Option.some.injEq, Prod.mk.injEq] at h
      exact h.2.1.symm
    · exact Option.noConfusion h
  have hb : ∀ (ctx : OverrideContext) m c tag,
      tryBaselineGuard ctx = some (m, c, tag) → c = min ctx.conf ctx.baseline_conf := by
    intro ctx m c tag h
    unfold tryBaselineGuard at h
    split at h
    · simp only [Option.some.injEq, Prod.mk.injEq] at h
      exact h.2.1.symm
    · exact Option.noConfusion h
  have hd : ∀ (ctx : OverrideContext) m c tag,
      tryDominantSmoothing ctx = some (m, c, tag) →
        ∃ ds, scoreStressPatternForMeter ctx.stress_pattern ctx.dominant_meter = some ds
          ∧ c = min ctx.conf ds := by
    intro ctx m c tag h
    unfold tryDominantSmoothing at h
    split at h
    · exact Option.noConfusion h
    · split at h
      · rename_i domScore curScore hds hcs
        split at h
        · simp only [Option.some.injEq, Prod.mk.injEq] at h
          exact ⟨domScore, hds, h.2.1.symm⟩
        · exact Option.noConfusion h
      · exact Option.noConfusion h
  refine ⟨?_, hp, hi, hb, hd⟩
  intro rule hrule ctx m c tag h
  simp only [METER_OVERRIDES, List.mem_cons, List.not_mem_nil, or_false] at hrule
  rcases hrule with rfl | rfl | rfl | rfl
  · rw [hp ctx m c tag h]; exact min_le_left _ _
  · rw [hi ctx m c tag h]; exact min_le_left _ _
  · rw [hb ctx m c tag h]; exact min_le_left _ _
  · obtain ⟨ds, _, rfl⟩ := hd ctx m c tag h
    exact min_le_left _ _

/-- Witness for C6: the pattern-rescore rule fires at a concrete context and
its confidence equals the stated minimum, hence is below the input. -/
theorem override_confidence_monotone_witness :
    min ((9 : ℚ)/10) (85/100) ≤ (9 : ℚ)/10 := by
  have hfire : tryPatternRescore
      ⟨"trochaic tetrameter", 9/10, "iambic pentameter", 85/100, 15/100,
       "USUSUSUSUS", "", 0, "", 0, 0⟩ =
      some ("iambic pentameter", min ((9 : ℚ)/10) (85/100), "pattern_rescore") := by
    unfold tryPatternRescore
    exact if_pos ⟨by decide, by decide,
      by norm_num [RESCORE_MIN_SCORE], by norm_num [RESCORE_MIN_MARGIN]⟩
  exact override_confidence_monotone.1 tryPatternRescore (by simp [METER_OVERRIDES])
    _ _ _ _ hfire

theorem mem_allowedSyllableCounts (footName : String) (feet : ℕ) (v : ℤ) :
    v ∈ allowedSyllableCountsForMeter footName feet ↔
      0 < v ∧ ∃ d ∈ meterLengthDeltas footName,
        v = ((footTemplate footName).length : ℤ) * feet + d := by
  unfold allowedSyllableCountsForMeter
  rw [(List.mergeSort_perm _ _).mem_iff, List.mem_dedup, List.mem_filter,
    List.mem_map]
  constructor
  · rintro ⟨⟨d, hd, rfl⟩, hpos⟩
    exact ⟨by simpa using hpos, d, hd, rfl⟩
  · rintro ⟨hpos, d, hd, rfl⟩
    exact ⟨⟨d, hd, rfl⟩, by simpa using hpos⟩

theorem mem_candidateMetersForSyllables (n : ℕ) (footName : String) (feet : ℕ) :
    (footName, feet) ∈ candidateMetersForSyllables n ↔
      footName ∈ footNames ∧ 1 ≤ feet ∧ feet ≤ 6 ∧
        (n : ℤ) ∈ allowedSyllableCountsForMeter footName feet := by
  unfold candidateMetersForSyllables
  rw [List.mem_flatMap]
  constructor
  · rintro ⟨f, hf, hmem⟩
    rw [List.mem_filterMap] at hmem
    obtain ⟨k, hk, heq⟩ := hmem
    rw [List.mem_range] at hk
    split at heq
    · rename_i hcond
      simp only [Option.some.injEq, Prod.mk.injEq] at heq
      obtain ⟨rfl, rfl⟩ := heq
      exact ⟨hf, by omega, by omega, hcond⟩
    · exact Option.noConfusion heq
  · rintro ⟨hf, h1, h6, hmem⟩
    refine ⟨footName, hf, ?_⟩
    rw [List.mem_filterMap]
    refine ⟨feet - 1, by rw [List.mem_range]; omega, ?_⟩
    have hfe : feet - 1 + 1 = feet := by omega
    rw [hfe, if_pos hmem]

/-- C7: for every syllable count `n` and foot-count in `1..6`, a
`(foot-type, foot-count)` pair is enumerated as a meter candidate iff `n`
equals the template base length plus one of the foot-type's allowed deltas
(`{0,+1}` for iambic; `{-1,0}` for trochaic, anapestic, dactylic). -/
theorem candidate_enumeration_iff (n : ℕ) (footName : String) (feet : ℕ)
    (hfoot : footName ∈ footNames) (h1 : 1 ≤ feet) (h6 : feet ≤ 6) :
    (((footName, feet) ∈ candidateMetersForSyllables n) ↔
      ∃ d ∈ meterLengthDeltas footName,
        (n : ℤ) = ((footTemplate footName).length : ℤ) * feet + d)
    ∧ meterLengthDeltas "iambic" = [0, 1]
    ∧ meterLengthDeltas "trochaic" = [-1, 0]
    ∧ meterLengthDeltas "anapestic" = [-1, 0]
    ∧ meterLengthDeltas "dactylic" = [-1, 0] := by
  refine ⟨?_, rfl, rfl, rfl, rfl⟩
  rw [mem_candidateMetersForSyllables, mem_allowedSyllableCounts]
  constructor
  · rintro ⟨_, _, _, _, hd⟩; exact hd
  · rintro ⟨d, hd, hn⟩
    have h1' : (1 : ℤ) ≤ (feet : ℤ) := by exact_mod_cast h1
    have hur : ((footTemplate footName).length : ℤ) = 2 ∨
        ((footTemplate footName).length : ℤ) = 3 := by
      have hfoot' := hfoot
      simp only [footNames, List.mem_cons, List.not_mem_nil, or_false] at hfoot'
      rcases hfoot' with rfl | rfl | rfl | rfl <;> simp [footTemplate]
    have hdb : -1 ≤ d ∧ d ≤ 1 := by
      have hfoot' := hfoot
      simp only [footNames, List.mem_cons, List.not_mem_nil, or_false] at hfoot'
      rcases hfoot' with rfl | rfl | rfl | rfl <;>
        simp [meterLengthDeltas] at hd <;>
        rcases hd with rfl | rfl <;> norm_num
    have hpos : 0 < (n : ℤ) := by
      rw [hn]
      rcases hur with h | h <;> rw [h] <;> nlinarith [hdb.1, hdb.2]
    exact ⟨hfoot, h1, h6, hpos, d, hd, hn⟩

/-- Witness for C7: iambic pentameter is enumerated for 11 syllables
(base length 10 plus the feminine-ending delta +1). -/
theorem candidate_enumeration_iff_witness :
    ("iambic", 5) ∈ candidateMetersForSyllables 11 :=
  (candidate_enumeration_iff 11 "iambic" 5 (by decide) (by decide) (by decide)).1.mpr
    ⟨1, by decide, by decide⟩

/-- C2 (counterexample): against a dactylic template with one missing
syllable, the insert transition is enabled at the line's end (`i = n`), not at
the line's start, contradicting the claim that ternary (anapestic/dactylic)
feet insert only at the line's start; the aligner's run on a concrete
two-syllable line against dactylic monometer exhibits the end insert at the
generic length-mismatch cost `0.85`. -/
theorem viterbi_insert_dactylic_end_counterexample :
    insertEnabled "dactylic" 2 3 2 2 = true ∧
    ¬ ((2 : ℕ) = 0 ∧ (2 : ℕ) = 0) ∧
    insertEnabled "dactylic" 2 3 0 0 = false ∧
    viterbiForMeter
      [⟨"high", 0, [('S', 0), ('U', 13/10)], 'S'⟩,
       ⟨"er", 0, [('U', 0), ('S', 13/10)], 'U'⟩] "dactylic" 1 =
      (['S', 'U'], some (17/20)) := by
  refine ⟨by decide, by decide, by decide, ?_⟩
  with_unfolding_all decide

/-- C2 (amended): in `_viterbi_for_meter` over `n` syllables against a
template of length `m`, the delete transition is enabled only when
`n = m + 1`, only for iambic feet, and only at `j = m`, absorbing a syllable
at its unstressed-option cost plus a penalty that equals the feminine-ending
discount exactly when the absorbed syllable is the line's final one (and the
larger generic length-mismatch cost otherwise); the insert transition is
enabled only when `n = m - 1`, for anapestic feet only at the line's start
`(i, j) = (0, 0)`, and for every other foot (dactylic included) only at the
line's end `i = n`. -/
theorem viterbi_transition_guards :
    (∀ (footName : String) (n m i j : ℕ),
        ((n : ℤ) - m = -1 ∨ (n : ℤ) - m = 0 ∨ (n : ℤ) - m = 1) →
        deleteEnabled footName n m i j = true →
        n = m + 1 ∧ footName = "iambic" ∧ i < n ∧ j = m)
    ∧ (∀ (footName : String) (n m i j : ℕ),
        ((n : ℤ) - m = -1 ∨ (n : ℤ) - m = 0 ∨ (n : ℤ) - m = 1) →
        insertEnabled footName n m i j = true → m = n + 1 ∧ j < m)
    ∧ (∀ n m i j : ℕ, insertEnabled "anapestic" n m i j = true → i = 0 ∧ j = 0)
    ∧ (∀ (footName : String) (n m i j : ℕ), footName ≠ "anapestic" →
        insertEnabled footName n m i j = true → i = n)
    ∧ (∀ n m i j : ℕ, j = m → i < n →
        (deletePenaltyAt n m i j = FEMININE_ENDING_COST ↔ i + 1 = n))
    ∧ FEMININE_ENDING_COST < LENGTH_MISMATCH_COST := by
  refine ⟨?_, ?_, ?_, ?_, ?_, by norm_num [FEMININE_ENDING_COST, LENGTH_MISMATCH_COST]⟩
  · intro footName n m i j hdiff h
    simp only [deleteEnabled, Bool.and_eq_true, decide_eq_true_eq,
      beq_iff_eq] at h
    obtain ⟨⟨⟨hmn, hfoot⟩, hin⟩, hjm⟩ := h
    exact ⟨by omega, hfoot, hin, hjm⟩
  · intro footName n m i j hdiff h
    simp only [insertEnabled, Bool.and_eq_true, decide_eq_true_eq] at h
    obtain ⟨⟨hnm, hjm⟩, _⟩ := h
    exact ⟨by omega, hjm⟩
  · intro n m i j h
    simp only [insertEnabled, Bool.and_eq_true, decide_eq_true_eq] at h
    obtain ⟨⟨_, _⟩, hcond⟩ := h
    simp at hcond
    exact hcond
  · intro footName n m i j hne h
    simp only [insertEnabled, Bool.and_eq_true, decide_eq_true_eq] at h
    obtain ⟨⟨_, _⟩, hcond⟩ := h
    have hbeq : (footName == "anapestic") = false := beq_eq_false_iff_ne.mpr hne
    rw [hbeq] at hcond
    simpa using hcond
  · intro n m i j hj hi
    unfold deletePenaltyAt
    by_cases hlast : i + 1 = n
    · rw [if_pos ⟨hj, hlast⟩]
      simp [hlast]
    · rw [if_neg (fun hc => hlast hc.2)]
      constructor
      · intro hcost
        exact absurd hcost (by norm_num [FEMININE_ENDING_COST, LENGTH_MISMATCH_COST])
      · intro hc; exact absurd hc hlast

/-- Witness for C2's amended theorem: a concrete enabled delete transition at
`n = 3`, `m = 2`. -/
theorem viterbi_transition_guards_witness :
    (3 : ℕ) = 2 + 1 ∧ "iambic" = "iambic" ∧ (2 : ℕ) < 3 ∧ (2 : ℕ) = 2 :=
  viterbi_transition_guards.1 "iambic" 3 2 2 2 (by decide) (by decide)

/-- C9 (counterexample): for a length-1 stressed sub-pattern against expected
length 3 with a valid baseline scaffold available, the validator returns the
scaffold, not the single-symbol expansion the claim prescribes. -/
theorem normalize_token_pattern_counterexample :
    normalizeTokenPattern "S" 3 ['S', 'U', 'U'] = ['S', 'U', 'U'] ∧
    normalizeTokenPattern "S" 3 ['S', 'U', 'U'] ≠ ['U', 'U', 'S'] := by
  refine ⟨?_, ?_⟩ <;> decide

/-- C9 (amended): the validator returns the filtered pattern unchanged when
its length matches; otherwise the baseline scaffold of the exact expected
length takes precedence; only when no valid scaffold exists is a length-1
symbol expanded (`S` to leading unstressed fill plus trailing `S`, `U` to
all-unstressed); anything else is rejected as empty, and every non-empty
result has exactly the expected length. -/
theorem normalize_token_pattern_repair :
    (∀ (rawPat : String) (expectedLen : ℕ) (baselinePat : List Char),
        normalizeTokenPattern rawPat expectedLen baselinePat = [] ∨
        (normalizeTokenPattern rawPat expectedLen baselinePat).length = expectedLen)
    ∧ (∀ (rawPat : String) (expectedLen : ℕ) (baselinePat : List Char),
        0 < expectedLen → (filteredStress rawPat).length = expectedLen →
        normalizeTokenPattern rawPat expectedLen baselinePat = filteredStress rawPat)
    ∧ (∀ (rawPat : String) (expectedLen : ℕ) (baselinePat : List Char),
        0 < expectedLen → filteredStress rawPat ≠ [] →
        (filteredStress rawPat).length ≠ expectedLen →
        validScaffold baselinePat expectedLen →
        normalizeTokenPattern rawPat expectedLen baselinePat = baselinePat)
    ∧ (∀ (rawPat : String) (expectedLen : ℕ) (baselinePat : List Char),
        0 < expectedLen → filteredStress rawPat = ['S'] → expectedLen ≠ 1 →
        ¬ validScaffold baselinePat expectedLen →
        normalizeTokenPattern rawPat expectedLen baselinePat =
          List.replicate (expectedLen - 1) 'U' ++ ['S'])
    ∧ (∀ (rawPat : String) (expectedLen : ℕ) (baselinePat : List Char),
        0 < expectedLen → filteredStress rawPat = ['U'] → expectedLen ≠ 1 →
        ¬ validScaffold baselinePat expectedLen →
        normalizeTokenPattern rawPat expectedLen baselinePat =
          List.replicate expectedLen 'U') := by
  refine ⟨?_, ?_, ?_, ?_, ?_⟩
  · intro rawPat expectedLen baselinePat
    unfold normalizeTokenPattern
    split_ifs with h0 hemp hlen hscaf hone hS
    · exact Or.inl rfl
    · exact Or.inl rfl
    · exact Or.inr hlen
    · exact Or.inr hscaf.2.1
    · exact Or.inr (by
        rw [List.length_append, List.length_replicate]
        simp only [List.length_cons, List.length_nil]
        omega)
    · exact Or.inr (by rw [List.length_replicate])
    · exact Or.inl rfl
  · intro rawPat expectedLen baselinePat he hlen
    have hnemp : ¬ filteredStress rawPat = [] := by
      intro hemp
      rw [hemp] at hlen
      simp only [List.length_nil] at hlen
      omega
    unfold normalizeTokenPattern
    rw [if_neg (by omega), if_neg hnemp, if_pos hlen]
  · intro rawPat expectedLen baselinePat he hne hlen hscaf
    unfold normalizeTokenPattern
    rw [if_neg (by omega), if_neg hne, if_neg hlen, if_pos hscaf]
  · intro rawPat expectedLen baselinePat he hS hone hscaf
    have hnemp : ¬ filteredStress rawPat = [] := by
      rw [hS]; exact fun hc => List.noConfusion hc
    have hnlen : ¬ (filteredStress rawPat).length = expectedLen := by
      rw [hS]
      simpa using fun hc => hone hc.symm
    unfold normalizeTokenPattern
    rw [if_neg (by omega), if_neg hnemp, if_neg hnlen, if_neg hscaf,
      if_pos (by rw [hS]; rfl), if_pos hS]
  · intro rawPat expectedLen baselinePat he hU hone hscaf
    have hnemp : ¬ filteredStress rawPat = [] := by
      rw [hU]; exact fun hc => List.noConfusion hc
    have hnlen : ¬ (filteredStress rawPat).length = expectedLen := by
      rw [hU]
      simpa using fun hc => hone hc.symm
    unfold normalizeTokenPattern
    rw [if_neg (by omega), if_neg hnemp, if_neg hnlen, if_neg hscaf,
      if_pos (by rw [hU]; rfl), if_neg (by rw [hU]; decide)]

/-- Witness for C9's amended theorem: with no scaffold available, a length-1
`S` against expected length 3 expands to `UUS`. -/
theorem normalize_token_pattern_repair_witness :
    normalizeTokenPattern "S" 3 [] = ['U', 'U', 'S'] :=
  normalize_token_pattern_repair.2.2.2.1 "S" 3 [] (by decide) (by decide)
    (by decide) (by decide)

theorem foldl_retry_filterMap {R : Type} (retry : ℤ → Option R) :
    ∀ (missing : List ℤ) (acc : List (ℤ × R)),
      missing.foldl (fun out b =>
          match retry b with
          | some r => out ++ [(b, r)]
          | none => out) acc
        = acc ++ missing.filterMap (fun b => (retry b).map (fun r => (b, r))) := by
  intro missing
  induction missing with
  | nil => intro acc; simp
  | cons b rest ih =>
      intro acc
      rw [List.foldl_cons, List.filterMap_cons]
      cases hb : retry b with
      | none => rw [ih]; simp
      | some r => rw [ih]; simp

theorem lookup_retry_filterMap_none {R : Type} (retry : ℤ → Option R)
    (missing : List ℤ) (b : ℤ) (hb : retry b = none) :
    (missing.filterMap (fun x => (retry x).map (fun r => (x, r)))).lookup b = none := by
  refine lookup_eq_none_of_no_key ?_
  intro p hp
  rw [List.mem_filterMap] at hp
  obtain ⟨x, _, hx⟩ := hp
  cases hr : retry x with
  | none => rw [hr] at hx; exact Option.noConfusion hx
  | some r =>
      rw [hr] at hx
      intro hpk
      have hx' : (x, r) = p := by simpa using hx
      rw [← hx'] at hpk
      have hxb : x = b := hpk
      rw [hxb] at hr
      rw [hr] at hb
      exact Option.noConfusion hb

/-- C8: `refine_lines` raises its validation error (after writing a debug
dump) exactly when zero lines of the batch validated; when some but not all
lines validated, exactly the missing lines are retried individually (once
each, so the attempts are bounded); a line whose retry also fails is absent
from the returned mapping while every line validated in the batch is still
returned. -/
theorem refine_lines_error_and_retry {R : Type} (baselines : List ℤ)
    (validated : List (ℤ × R)) (retry : ℤ → Option R) :
    ((∃ e, refineLinesOutcome baselines validated retry = .error e ∧
        e.debug_dump_written = true ∧
        e.reason = "llm_invalid_response: results_failed_validation") ↔ validated = [])
    ∧ (∀ out, refineLinesOutcome baselines validated retry = .ok out →
        (∀ (k : ℤ) (v : R), validated.lookup k = some v → out.lookup k = some v)
        ∧ (∀ b : ℤ, validated.lookup b = none → retry b = none →
            out.lookup b = none))
    ∧ (∀ b : ℤ, b ∈ (retryMissing baselines validated retry).2 ↔
        (0 < validated.length ∧ validated.length < baselines.length) ∧
          b ∈ baselines ∧ (validated.lookup b).isNone)
    ∧ (baselines.Nodup → (retryMissing baselines validated retry).2.Nodup) := by
  have hout : (retryMissing baselines validated retry).1 =
      validated ++ (if 0 < validated.length ∧ validated.length < baselines.length
        then (baselines.filter (fun b => (validated.lookup b).isNone)).filterMap
          (fun b => (retry b).map (fun r => (b, r)))
        else []) := by
    unfold retryMissing
    split_ifs with hc
    · rw [foldl_retry_filterMap]
    · rw [List.append_nil]
  refine ⟨?_, ?_, ?_, ?_⟩
  · constructor
    · rintro ⟨e, he, _, _⟩
      unfold refineLinesOutcome at he
      split_ifs at he with hempty
      rw [hout] at hempty
      rcases List.append_eq_nil.mp (List.isEmpty_iff.mp hempty) with ⟨h1, _⟩
      exact h1
    · rintro rfl
      refine ⟨⟨"llm_invalid_response: results_failed_validation", true⟩, ?_, rfl, rfl⟩
      unfold refineLinesOutcome retryMissing
      simp
  · intro out hok
    unfold refineLinesOutcome at hok
    split_ifs at hok with hempty
    have hout' : out = (retryMissing baselines validated retry).1 :=
      (Except.ok.inj hok).symm
    rw [hout', hout]
    constructor
    · intro k v hk
      split_ifs
      · exact lookup_append_left _ hk
      · rw [List.append_nil]; exact hk
    · intro b hb hr
      split_ifs
      · exact lookup_append_none (lookup_retry_filterMap_none retry _ b hr) hb
      · rw [List.append_nil]; exact hb
  · intro b
    unfold retryMissing
    split_ifs with hc
    · simp only [List.mem_filter]
      constructor
      · rintro ⟨hmem, hnone⟩
        exact ⟨hc, hmem, by simpa using hnone⟩
      · rintro ⟨_, hmem, hnone⟩
        exact ⟨hmem, by simpa using hnone⟩
    · simp only [List.not_mem_nil, false_iff]
      rintro ⟨hc', _, _⟩
      exact hc hc'
  · intro hnodup
    unfold retryMissing
    split_ifs
    · exact hnodup.filter _
    · exact List.nodup_nil

/-- Witness for C8 at a concrete batch: line 1 validated, line 2 missing with
a failing retry, so the accepted mapping keeps 1 and lacks 2. -/
theorem refine_lines_error_and_retry_witness :
    (([((1 : ℤ), "iambic pentameter")] : List (ℤ × String)).lookup 1 =
        some "iambic pentameter") ∧
    (([((1 : ℤ), "iambic pentameter")] : List (ℤ × String)).lookup 2 = none) := by
  have h := (refine_lines_error_and_retry [(1 : ℤ), 2]
    [((1 : ℤ), "iambic pentameter")] (fun _ => none)).2.1
    [((1 : ℤ), "iambic pentameter")] rfl
  exact ⟨h.1 1 "iambic pentameter" (by decide), h.2 2 (by decide) rfl⟩

/-- Whether the refine call inside `main` counts as a total failure: it raised
an exception, or it returned an empty mapping. -/
def refineFailed {R : Type} : RefineOutcome R → Prop
  | .error _ => True
  | .ok refined => refined = []

/-- C10: the scan response's `error` is set (and `results` is empty) exactly
when LLM refinement is disabled, misconfigured (missing endpoint/model, or a
non-positive `max_lines_per_scan`), or — with lines to analyze — fails
entirely; with a well-formed LLM configuration and successful refinement the
deterministic analysis path never sets `error`; and (modelled from the spec)
the caller keeps the deterministic verdict together with the error reason
whenever the response carries `error`. -/
theorem scan_error_policy {R : Type} (cfg : LlmCfg) (analyses : List CliAnalysis)
    (refineOutcome : RefineOutcome R) (refined : List (ℤ × CliRefined))
    (dm : String) (dr : ℚ) (dc : ℕ) :
    ((scanErrorMsg cfg analyses.isEmpty refineOutcome).isSome ↔
      (¬ cfg.enabled ∨ strTrim cfg.endpoint = "" ∨ strTrim cfg.model = "" ∨
        cfg.max_lines_per_scan ≤ 0 ∨ (analyses ≠ [] ∧ refineFailed refineOutcome)))
    ∧ (∀ msg, scanErrorMsg cfg analyses.isEmpty refineOutcome = some msg →
        scanResults (some msg) analyses refined dm dr dc = [])
    ∧ (cfg.enabled → ¬ strTrim cfg.endpoint = "" → ¬ strTrim cfg.model = "" →
        0 < cfg.max_lines_per_scan → ¬ refineFailed refineOutcome →
        scanErrorMsg cfg analyses.isEmpty refineOutcome = none)
    ∧ (∀ (det : CliAnalysis) (msg : String),
        callerVisibleOutcome det (some msg) = (det, some msg)) := by
  refine ⟨?_, ?_, ?_, fun det msg => rfl⟩
  · unfold scanErrorMsg
    by_cases h1 : cfg.enabled
    case neg =>
      rw [if_pos h1]
      simp only [Option.isSome_some, true_iff]
      exact Or.inl h1
    case pos =>
      rw [if_neg (not_not_intro h1)]
      by_cases h2 : strTrim cfg.endpoint = "" ∨ strTrim cfg.model = ""
      · rw [if_pos h2]
        simp only [Option.isSome_some, true_iff]
        rcases h2 with h | h
        · exact Or.inr (Or.inl h)
        · exact Or.inr (Or.inr (Or.inl h))
      · rw [if_neg h2]
        by_cases h3 : cfg.max_lines_per_scan ≤ 0
        · rw [if_pos h3]
          simp only [Option.isSome_some, true_iff]
          exact Or.inr (Or.inr (Or.inr (Or.inl h3)))
        · rw [if_neg h3]
          by_cases h4 : analyses.isEmpty
          · rw [if_pos h4]
            simp only [Option.isSome_none, Bool.false_eq_true, false_iff]
            rintro (h | h | h | h | ⟨hne, _⟩)
            · exact h h1
            · exact h2 (Or.inl h)
            · exact h2 (Or.inr h)
            · exact h3 h
            · exact hne (List.isEmpty_iff.mp h4)
          · rw [if_neg h4]
            have hne : analyses ≠ [] := fun hnil =>
              h4 (by rw [hnil]; rfl)
            cases refineOutcome with
            | error msg =>
                dsimp only
                simp only [Option.isSome_some, true_iff]
                exact Or.inr (Or.inr (Or.inr (Or.inr ⟨hne, trivial⟩)))
            | ok refined' =>
                dsimp only
                by_cases hr : refined'.isEmpty
                · rw [if_pos hr]
                  simp only [Option.isSome_some, true_iff]
                  exact Or.inr (Or.inr (Or.inr (Or.inr
                    ⟨hne, List.isEmpty_iff.mp hr⟩)))
                · rw [if_neg hr]
                  simp only [Option.isSome_none, Bool.false_eq_true, false_iff]
                  rintro (h | h | h | h | ⟨_, hfail⟩)
                  · exact h h1
                  · exact h2 (Or.inl h)
                  · exact h2 (Or.inr h)
                  · exact h3 h
                  · exact hr (List.isEmpty_iff.mpr hfail)
  · intro msg _
    unfold scanResults
    simp
  · intro hen hep hmo hmax hfail
    unfold scanErrorMsg
    rw [if_neg (not_not_intro hen), if_neg (fun h => h.elim hep hmo),
      if_neg (by omega)]
    by_cases h4 : analyses.isEmpty
    · rw [if_pos h4]
    · rw [if_neg h4]
      cases refineOutcome with
      | error msg => exact absurd trivial hfail
      | ok refined' =>
          dsimp only
          rw [if_neg (fun h => hfail (List.isEmpty_iff.mp h))]

/-- Witness for C10: with refinement disabled the error field is set. -/
theorem scan_error_policy_witness :
    (scanErrorMsg ⟨false, "http://localhost", "model", 5⟩
      ([] : List CliAnalysis).isEmpty
      (.ok ([] : List (ℤ × Unit)))).isSome :=
  (scan_error_policy ⟨false, "http://localhost", "model", 5⟩ [] (.ok [])
    [] "" 0 0).1.mpr (Or.inl (by decide))

/-! ### Invariants of the Viterbi grid -/

/-- Well-formedness of one grid cell: a reachable cost is non-negative, and
every stress character stored in a back-pointer is `U` or `S`. -/
abbrev VCellOK (c : VCell) : Prop :=
  (∀ q : ℚ, c.cost = some q → 0 ≤ q) ∧
  (∀ (pi pj : ℕ) (a : Char) (s : List Char), c.prev = some (pi, pj, a, s) →
    ∀ ch ∈ s, ch = 'U' ∨ ch = 'S')

abbrev GridOK (g : VGrid) : Prop := ∀ row ∈ g, ∀ c ∈ row, VCellOK c

theorem vcellOK_empty : VCellOK emptyCell :=
  ⟨fun _ h => Option.noConfusion h, fun _ _ _ _ h => Option.noConfusion h⟩

theorem gridOK_get {g : VGrid} (hg : GridOK g) (i j : ℕ) :
    VCellOK (gridGet g i j) := by
  unfold gridGet
  rcases getD_mem_or_eq g i [] with hrow | hrow
  · rcases getD_mem_or_eq (g.getD i []) j emptyCell with hc | hc
    · exact hg _ hrow _ hc
    · rw [hc]; exact vcellOK_empty
  · rw [hrow]
    rcases getD_mem_or_eq ([] : List VCell) j emptyCell with hc | hc
    · exact absurd hc (List.not_mem_nil _)
    · rw [hc]; exact vcellOK_empty

theorem gridOK_set {g : VGrid} (hg : GridOK g) {c : VCell} (hc : VCellOK c)
    (i j : ℕ) : GridOK (gridSet g i j c) := by
  intro row hrow cell hcell
  unfold gridSet at hrow
  rcases List.mem_or_eq_of_mem_set hrow with hrow' | rfl
  · exact hg _ hrow' _ hcell
  · rcases List.mem_or_eq_of_mem_set hcell with hcell' | rfl
    · rcases getD_mem_or_eq g i [] with hrow2 | hrow2
      · exact hg _ hrow2 _ hcell'
      · rw [hrow2] at hcell'
        exact absurd hcell' (List.not_mem_nil _)
    · exact hc

theorem gridOK_relaxTo {g : VGrid} (hg : GridOK g) {i j : ℕ} {newCost : ℚ}
    {pr : ℕ × ℕ × Char × List Char} (h0 : 0 ≤ newCost)
    (hpr : ∀ ch ∈ pr.2.2.2, ch = 'U' ∨ ch = 'S') :
    GridOK (relaxTo g i j newCost pr) := by
  unfold relaxTo
  have hwrite : VCellOK ⟨some newCost, some pr⟩ := by
    constructor
    · intro q hq
      rw [(Option.some.inj hq : newCost = q)] at h0
      exact h0
    · intro pi pj a s hs
      have : pr = (pi, pj, a, s) := Option.some.inj hs
      rw [this] at hpr
      exact hpr
  cases (gridGet g i j).cost with
  | none => exact gridOK_set hg hwrite i j
  | some old =>
      dsimp only
      split_ifs
      · exact gridOK_set hg hwrite i j
      · exact hg

theorem positionMismatchExtra_nonneg (footName : String) (templateIdx : ℕ) :
    0 ≤ positionMismatchExtra footName templateIdx := by
  unfold positionMismatchExtra
  dsimp only
  split_ifs <;>
    norm_num [IAMBIC_FIRST_FOOT_PENALTY, IAMBIC_SPONDEE_PENALTY,
      IAMBIC_WEAK_STRONG_PENALTY, TROCHAIC_FIRST_FOOT_PENALTY,
      TROCHAIC_SPONDEE_PENALTY, TROCHAIC_WEAK_STRONG_PENALTY] <;>
    split_ifs <;> norm_num

theorem mismatchCostAt_nonneg (footName : String) (templateIdx : ℕ) :
    0 ≤ mismatchCostAt footName templateIdx := by
  have h := positionMismatchExtra_nonneg footName templateIdx
  have hB : (0 : ℚ) ≤ BINARY_FIRST_POS_DISCOUNT := by
    norm_num [BINARY_FIRST_POS_DISCOUNT]
  unfold mismatchCostAt
  dsimp only
  split_ifs <;> linarith

theorem dictGet_nonneg {opts : List (Char × ℚ)}
    (hopts : ∀ o ∈ opts, 0 ≤ o.2) (ch : Char) : 0 ≤ dictGet opts ch 0 := by
  unfold dictGet
  cases hl : opts.reverse.lookup ch with
  | none => simp
  | some v =>
      have hmem : (ch, v) ∈ opts.reverse := lookup_some_mem hl
      have := hopts (ch, v) (List.mem_reverse.mp hmem)
      simpa using this

theorem deletePenaltyAt_nonneg (n m i j : ℕ) : 0 ≤ deletePenaltyAt n m i j := by
  unfold deletePenaltyAt
  split_ifs <;> norm_num [FEMININE_ENDING_COST, LENGTH_MISMATCH_COST]

/-- The per-unit hypothesis used throughout: every stress option has a
non-negative cost and a `U`/`S` symbol. -/
abbrev UnitOK (u : SyllableUnit) : Prop :=
  ∀ o ∈ u.options, 0 ≤ o.2 ∧ (o.1 = 'U' ∨ o.1 = 'S')

theorem unitOK_getD {sylls : List SyllableUnit}
    (hsylls : ∀ u ∈ sylls, UnitOK u) (i : ℕ) :
    UnitOK (sylls.getD i defaultUnit) := by
  rcases getD_mem_or_eq sylls i defaultUnit with h | h
  · exact hsylls _ h
  · rw [h]
    intro o ho
    exact absurd ho (List.not_mem_nil _)

theorem foldl_inv_mem {α β : Type} {P : α → Prop} (l : List β)
    (step : α → β → α) (h : ∀ a b, b ∈ l → P a → P (step a b)) :
    ∀ a, P a → P (l.foldl step a) := by
  induction l with
  | nil => intro a ha; simpa using ha
  | cons x xs ih =>
      intro a ha
      rw [List.foldl_cons]
      exact ih (fun a b hb => h a b (List.mem_cons_of_mem _ hb)) _
        (h a x (List.mem_cons_self ..) ha)

theorem gridOK_stepMatch {sylls : List SyllableUnit} {footName : String}
    {template : List Char} (hsylls : ∀ u ∈ sylls, UnitOK u) {cur : ℚ}
    (hcur : 0 ≤ cur) {g : VGrid} (hg : GridOK g) (i j : ℕ) :
    GridOK (stepMatch sylls footName template cur i j g) := by
  have hunit := unitOK_getD hsylls i
  unfold stepMatch
  split_ifs
  · refine foldl_inv_mem _ _ ?_ g hg
    intro a opt hopt ha
    refine gridOK_relaxTo ha ?_ ?_
    · have h1 := (hunit opt hopt).1
      have h2 := mismatchCostAt_nonneg footName j
      split_ifs <;> linarith
    · intro ch hch
      rw [List.mem_singleton.mp hch]
      exact (hunit opt hopt).2
  · exact hg

theorem gridOK_stepDelete {sylls : List SyllableUnit} {footName : String}
    {template : List Char} (hsylls : ∀ u ∈ sylls, UnitOK u) {cur : ℚ}
    (hcur : 0 ≤ cur) {g : VGrid} (hg : GridOK g) (i j : ℕ) :
    GridOK (stepDelete sylls footName template cur i j g) := by
  have hunit := unitOK_getD hsylls i
  unfold stepDelete
  split_ifs
  · refine gridOK_relaxTo hg ?_ ?_
    · have h1 : 0 ≤ dictGet (sylls.getD i defaultUnit).options 'U' 0 :=
        dictGet_nonneg (fun o ho => (hunit o ho).1) 'U'
      have h2 := deletePenaltyAt_nonneg sylls.length template.length i j
      linarith
    · intro ch hch
      rw [List.mem_singleton.mp hch]
      exact Or.inl rfl
  · exact hg

theorem gridOK_stepInsert {footName : String} {n m : ℕ} {cur : ℚ}
    (hcur : 0 ≤ cur) {g : VGrid} (hg : GridOK g) (i j : ℕ) :
    GridOK (stepInsert footName n m cur i j g) := by
  unfold stepInsert
  split_ifs
  · refine gridOK_relaxTo hg ?_ ?_
    · have : (0 : ℚ) ≤ LENGTH_MISMATCH_COST := by norm_num [LENGTH_MISMATCH_COST]
      linarith
    · intro ch hch
      exact absurd hch (List.not_mem_nil _)
  · exact hg

theorem gridOK_stepCell {sylls : List SyllableUnit} {footName : String}
    {template : List Char} (hsylls : ∀ u ∈ sylls, UnitOK u) {g : VGrid}
    (hg : GridOK g) (i j : ℕ) :
    GridOK (stepCell sylls footName template g i j) := by
  unfold stepCell
  cases hc : (gridGet g i j).cost with
  | none => exact hg
  | some cur =>
      have hcur : 0 ≤ cur := (gridOK_get hg i j).1 cur hc
      exact gridOK_stepInsert hcur
        (gridOK_stepDelete hsylls hcur (gridOK_stepMatch hsylls hcur hg i j) i j)
        i j

theorem gridOK_initGrid (n m : ℕ) : GridOK (initGrid n m) := by
  unfold initGrid
  refine gridOK_set ?_ ?_ 0 0
  · intro row hrow c hcell
    rw [List.eq_of_mem_replicate hrow] at hcell
    rw [List.eq_of_mem_replicate hcell]
    exact vcellOK_empty
  · constructor
    · intro q hq
      rw [← Option.some.inj hq]
    · intro pi pj a s hs
      exact Option.noConfusion hs

theorem gridOK_viterbiGrid {sylls : List SyllableUnit} {footName : String}
    {template : List Char} (hsylls : ∀ u ∈ sylls, UnitOK u) :
    GridOK (viterbiGrid sylls footName template) := by
  unfold viterbiGrid
  have hrow : ∀ (i : ℕ) (g : VGrid), GridOK g →
      GridOK ((List.range (template.length + 1)).foldl
        (fun g j => stepCell sylls footName template g i j) g) := by
    intro i g hgok
    exact @foldl_inv_mem VGrid ℕ GridOK (List.range (template.length + 1))
      (fun g j => stepCell sylls footName template g i j)
      (fun a j _ ha => gridOK_stepCell hsylls ha i j) g hgok
  exact @foldl_inv_mem VGrid ℕ GridOK (List.range (sylls.length + 1))
    (fun g i => (List.range (template.length + 1)).foldl
      (fun g j => stepCell sylls footName template g i j) g)
    (fun a i _ ha => hrow i a ha) _
    (gridOK_initGrid sylls.length template.length)

theorem backtrack_chars {g : VGrid} (hg : GridOK g) :
    ∀ (fuel i j : ℕ), ∀ ch ∈ backtrackAux g fuel i j, ch = 'U' ∨ ch = 'S' := by
  intro fuel
  induction fuel with
  | zero => intro i j ch hch; exact absurd hch (List.not_mem_nil _)
  | succ f ih =>
      intro i j ch hch
      unfold backtrackAux at hch
      split_ifs at hch
      · exact absurd hch (List.not_mem_nil _)
      · cases hp : (gridGet g i j).prev with
        | none =>
            rw [hp] at hch
            exact absurd hch (List.not_mem_nil _)
        | some pr =>
            obtain ⟨pi, pj, a, s⟩ := pr
            rw [hp] at hch
            rcases List.mem_append.mp hch with hch' | hch'
            · exact ih pi pj ch hch'
            · split_ifs at hch'
              · exact (gridOK_get hg i j).2 pi pj a s hp ch hch'
              · exact absurd hch' (List.not_mem_nil _)

/-- Non-negativity of every reachable Viterbi cost under non-negative option
costs. -/
theorem viterbi_cost_nonneg {sylls : List SyllableUnit} {footName : String}
    {feet : ℕ} (hsylls : ∀ u ∈ sylls, UnitOK u) :
    ∀ c : ℚ, (viterbiForMeter sylls footName feet).2 = some c → 0 ≤ c := by
  intro c hc
  unfold viterbiForMeter at hc
  dsimp only at hc
  split_ifs at hc <;>
    (split at hc
     · simp at hc
     · rename_i q hcost
       rw [← Option.some.inj hc]
       exact (gridOK_get (gridOK_viterbiGrid hsylls) _ _).1 q hcost)

/-- Alphabet closure of the Viterbi-resolved pattern. -/
theorem viterbi_pattern_chars {sylls : List SyllableUnit} {footName : String}
    {feet : ℕ} (hsylls : ∀ u ∈ sylls, UnitOK u)
    (hdef : ∀ u ∈ sylls, u.default_stress = 'U' ∨ u.default_stress = 'S') :
    ∀ ch ∈ (viterbiForMeter sylls footName feet).1, ch = 'U' ∨ ch = 'S' := by
  intro ch hch
  have hfall : ∀ ch ∈ sylls.map (fun u => u.default_stress),
      ch = 'U' ∨ ch = 'S' := by
    intro c hc
    rw [List.mem_map] at hc
    obtain ⟨u, hu, rfl⟩ := hc
    exact hdef u hu
  unfold viterbiForMeter at hch
  dsimp only at hch
  split_ifs at hch <;>
    first
    | exact hfall ch (by simpa using hch)
    | (split at hch
       · exact hfall ch (by simpa using hch)
       · rename_i q hcost
         dsimp only at hch
         first
         | exact hfall ch (by simpa using hch)
         | exact backtrack_chars (gridOK_viterbiGrid hsylls) _ _ _ ch
             (by simpa using hch))

/-- C3, counterexample: the spec puts the iambic-pentameter length bonus on
every line of 9–11 syllables, but `_apply_meter_length_priors` adds
`IAMBIC_PENTAMETER_BONUS` only when `pattern_len >= 10`: at 9 syllables an
iambic-pentameter candidate's score passes through unchanged. -/
theorem length_prior_counterexample :
    applyMeterLengthPriors (1/2) "iambic" 5 9 = 1/2 ∧
    applyMeterLengthPriors (1/2) "iambic" 5 10
        = 1/2 + IAMBIC_PENTAMETER_BONUS ∧
    (1/2 : ℚ) ≠ 1/2 + IAMBIC_PENTAMETER_BONUS := by
  refine ⟨?_, ?_, ?_⟩ <;> with_unfolding_all decide

/-- C3 (amended): every candidate path's base score blends 50% the
prior-adjusted alignment score `max(0, 1 - cost/max(n, m, 1))` (clamped to
`[0,1]`, with the reachable Viterbi cost non-negative) with 50% the same
scoring formula on the syllables' raw lexical stress pattern; the 9–11
length priors add the trochaic-pentameter bonus, subtract the ternary
penalty, and add the iambic-pentameter bonus only from 10 syllables on
(at 9 the score is only clamped); the 12–13 priors add the
iambic-hexameter bonus and subtract the ternary penalty. -/
theorem candidate_score_blend (sylls : List SyllableUnit)
    (contextMeter : String) (contextBonusMax : ℚ)
    (hsylls : ∀ u ∈ sylls, UnitOK u) (s : ℚ) (len f : ℕ) :
    (∀ p ∈ meterPathsFor sylls contextMeter contextBonusMax,
       p.base_score =
         50/100 * applyMeterLengthPriors
             (alignScoreRaw p.pattern (templateForMeter p.foot_name p.feet)
               p.cost) p.foot_name p.feet p.pattern.length
         + 50/100 * scorePatternForMeter
             (sylls.map (fun u => u.default_stress)) p.foot_name p.feet ∧
       ∀ c : ℚ, p.cost = some c → 0 ≤ c ∧
         alignScoreRaw p.pattern (templateForMeter p.foot_name p.feet) (some c)
           = max 0 (1 - c / max (max (p.pattern.length : ℚ)
               ((templateForMeter p.foot_name p.feet).length : ℚ)) 1) ∧
         0 ≤ alignScoreRaw p.pattern (templateForMeter p.foot_name p.feet)
               (some c) ∧
         alignScoreRaw p.pattern (templateForMeter p.foot_name p.feet)
             (some c) ≤ 1) ∧
    (9 ≤ len → len ≤ 11 →
       applyMeterLengthPriors s "trochaic" 5 len
           = max 0 (min 1 (s + TROCHAIC_PENTAMETER_BONUS)) ∧
       applyMeterLengthPriors s "anapestic" f len
           = max 0 (min 1 (s - TERNARY_METER_PENALTY)) ∧
       applyMeterLengthPriors s "dactylic" f len
           = max 0 (min 1 (s - TERNARY_METER_PENALTY)) ∧
       (10 ≤ len →
         applyMeterLengthPriors s "iambic" 5 len
           = max 0 (min 1 (s + IAMBIC_PENTAMETER_BONUS))) ∧
       (len = 9 →
         applyMeterLengthPriors s "iambic" 5 len = max 0 (min 1 s))) ∧
    (12 ≤ len → len ≤ 13 →
       applyMeterLengthPriors s "iambic" 6 len
           = max 0 (min 1 (s + IAMBIC_HEXAMETER_BONUS)) ∧
       applyMeterLengthPriors s "anapestic" f len
           = max 0 (min 1 (s - TERNARY_METER_PENALTY)) ∧
       applyMeterLengthPriors s "dactylic" f len
           = max 0 (min 1 (s - TERNARY_METER_PENALTY))) := by
  refine ⟨?_, ?_, ?_⟩
  · intro p hp
    unfold meterPathsFor at hp
    dsimp only at hp
    rw [List.mem_filterMap] at hp
    obtain ⟨c, hc, hpc⟩ := hp
    split at hpc
    · exact Option.noConfusion hpc
    · obtain rfl := (Option.some.inj hpc)
      have hfn : (meterPathFor sylls (List.map (fun u => u.default_stress) sylls)
          contextMeter contextBonusMax c.1 c.2).foot_name = c.1 := rfl
      have hft : (meterPathFor sylls (List.map (fun u => u.default_stress) sylls)
          contextMeter contextBonusMax c.1 c.2).feet = c.2 := rfl
      rw [hfn, hft]
      constructor
      · rfl
      · intro q hq
        have hq' : (viterbiForMeter sylls c.1 c.2).2 = some q := hq
        have hq0 : 0 ≤ q := viterbi_cost_nonneg hsylls q hq'
        refine ⟨hq0, rfl, le_max_left _ _, ?_⟩
        have hnorm : (0:ℚ) ≤ max (max
            ((meterPathFor sylls (List.map (fun u => u.default_stress) sylls)
              contextMeter contextBonusMax c.1 c.2).pattern.length : ℚ)
            ((templateForMeter c.1 c.2).length : ℚ)) 1 :=
          le_trans zero_le_one (le_max_right _ _)
        have hdiv : 0 ≤ q / max (max
            ((meterPathFor sylls (List.map (fun u => u.default_stress) sylls)
              contextMeter contextBonusMax c.1 c.2).pattern.length : ℚ)
            ((templateForMeter c.1 c.2).length : ℚ)) 1 :=
          div_nonneg hq0 hnorm
        unfold alignScoreRaw
        dsimp only
        refine max_le (by norm_num) (by linarith)
  · intro h9 h11
    interval_cases len <;>
      refine ⟨?_, ?_, ?_, ?_, ?_⟩ <;>
      (try (intro h; try omega)) <;>
      simp [applyMeterLengthPriors, TROCHAIC_PENTAMETER_BONUS,
        TERNARY_METER_PENALTY, IAMBIC_PENTAMETER_BONUS]
  · intro h12 h13
    interval_cases len <;>
      refine ⟨?_, ?_, ?_⟩ <;>
      simp [applyMeterLengthPriors, IAMBIC_HEXAMETER_BONUS,
        TERNARY_METER_PENALTY]

/-- Witness for C3 at a one-syllable line, score 1/2, lengths 10 and 12. -/
theorem candidate_score_blend_witness :
    applyMeterLengthPriors (1/2) "trochaic" 5 10
        = max 0 (min 1 (1/2 + TROCHAIC_PENTAMETER_BONUS)) ∧
    applyMeterLengthPriors (1/2) "iambic" 6 12
        = max 0 (min 1 (1/2 + IAMBIC_HEXAMETER_BONUS)) :=
  ⟨((candidate_score_blend [⟨"day", 0, [('S', 0)], 'S'⟩] "" 0
      (by with_unfolding_all decide) (1/2) 10 3).2.1 (by norm_num)
      (by norm_num)).1,
   ((candidate_score_blend [⟨"day", 0, [('S', 0)], 'S'⟩] "" 0
      (by with_unfolding_all decide) (1/2) 12 3).2.2 (by norm_num)
      (by norm_num)).1⟩

/-- Every rescored candidate's foot is one of the four foot names, its feet
count lies in 1..6, and its score is `_score_pattern_for_meter` of the
pattern. -/
theorem mem_rescoredFor {pattern : List Char} {p : String × ℕ × ℚ}
    (hp : p ∈ rescoredFor pattern) :
    p.1 ∈ footNames ∧ 1 ≤ p.2.1 ∧ p.2.1 ≤ 6 ∧
      p.2.2 = scorePatternForMeter pattern p.1 p.2.1 := by
  unfold rescoredFor at hp
  rw [List.mem_map] at hp
  obtain ⟨c, hc, rfl⟩ := hp
  unfold meterCandidates at hc
  by_cases hpat : pattern = []
  · rw [if_pos hpat] at hc
    · exact absurd hc (List.not_mem_nil c)
  · rw [if_neg hpat] at hc
    dsimp only at hc
    rw [(List.mergeSort_perm _ _).mem_iff, List.mem_flatMap] at hc
    obtain ⟨f, hf, hmem⟩ := hc
    rw [List.mem_filterMap] at hmem
    obtain ⟨k, hk, heq⟩ := hmem
    rw [List.mem_range] at hk
    split at heq
    · obtain rfl := (Option.some.inj heq)
      exact ⟨hf, by dsimp only; omega, by dsimp only; omega, rfl⟩
    · exact Option.noConfusion heq

/-- For a candidate's foot name and feet count, the composed meter name
equals "iambic pentameter" (resp. "iambic hexameter") exactly for
iambic 5 (resp. iambic 6). -/
theorem meterName_eq_iff {foot : String} {feet : ℕ}
    (hf : foot ∈ footNames) (h1 : 1 ≤ feet) (h6 : feet ≤ 6) :
    ((foot ++ " " ++ lineNameByFeet feet = "iambic pentameter") ↔
      (foot = "iambic" ∧ feet = 5)) ∧
    ((foot ++ " " ++ lineNameByFeet feet = "iambic hexameter") ↔
      (foot = "iambic" ∧ feet = 6)) := by
  simp only [footNames, List.mem_cons, List.not_mem_nil, or_false] at hf
  rcases hf with rfl | rfl | rfl | rfl <;>
    (interval_cases feet <;>
      constructor <;> constructor <;> intro h <;>
        first
        | exact absurd h (by with_unfolding_all decide)
        | (with_unfolding_all decide))

/-- C4: after the rescoring sort, the output name is "iambic pentameter"
exactly when the top candidate already is iambic pentameter or (for a
10--11-syllable pattern) iambic pentameter's score is within
`IAMBIC_BIAS_THRESHOLD` of the top score; analogously "iambic hexameter"
at 12--13 syllables; and the 9-syllable alternating pattern "USUSUSUSU"
yields "iambic tetrameter", not pentameter. -/
theorem iambic_bias_ranking (s : String)
    (hres : rescoredFor (stressFilter s) ≠ []) :
    (10 ≤ (stressFilter s).length → (stressFilter s).length ≤ 11 →
      ((bestMeterForStressPattern s).1 = "iambic pentameter" ↔
        (((sortedRescored (stressFilter s)).headD ("", 0, 0)).1 = "iambic" ∧
          ((sortedRescored (stressFilter s)).headD ("", 0, 0)).2.1 = 5) ∨
        scorePatternForMeter (stressFilter s) "iambic" 5 ≥
          ((sortedRescored (stressFilter s)).headD ("", 0, 0)).2.2
            - IAMBIC_BIAS_THRESHOLD)) ∧
    (12 ≤ (stressFilter s).length → (stressFilter s).length ≤ 13 →
      ((bestMeterForStressPattern s).1 = "iambic hexameter" ↔
        (((sortedRescored (stressFilter s)).headD ("", 0, 0)).1 = "iambic" ∧
          ((sortedRescored (stressFilter s)).headD ("", 0, 0)).2.1 = 6) ∨
        scorePatternForMeter (stressFilter s) "iambic" 6 ≥
          ((sortedRescored (stressFilter s)).headD ("", 0, 0)).2.2
            - IAMBIC_BIAS_THRESHOLD)) ∧
    (bestMeterForStressPattern "USUSUSUSU").1 = "iambic tetrameter" := by
  have hmem0 : rescoredFor (stressFilter s) ≠ [] →
      ((sortedRescored (stressFilter s)).headD ("", 0, 0)
        ∈ rescoredFor (stressFilter s)) := fun hne => by
    unfold sortedRescored
    exact (headD_mergeSort_max (fun c => c.2.2) (rescoredFor (stressFilter s))
      ("", 0, 0) hne).1
  refine ⟨?_, ?_, ?_⟩
  · intro h10 h11
    have hpne : stressFilter s ≠ [] := by
      intro h
      rw [h] at h10
      simp at h10
    unfold bestMeterForStressPattern
    dsimp only
    rw [if_neg hpne, if_neg hres, if_pos ⟨h10, h11⟩]
    dsimp only
    by_cases hbias :
        ((((sortedRescored (stressFilter s)).headD ("", 0, 0)).1 ≠ "iambic" ∨
            ((sortedRescored (stressFilter s)).headD ("", 0, 0)).2.1 ≠ 5) ∧
          scorePatternForMeter (stressFilter s) "iambic" 5 ≥
            ((sortedRescored (stressFilter s)).headD ("", 0, 0)).2.2 -
              IAMBIC_BIAS_THRESHOLD)
    · rw [if_pos hbias]
      dsimp only
      exact iff_of_true (by with_unfolding_all decide) (Or.inr hbias.2)
    · rw [if_neg hbias]
      dsimp only
      obtain ⟨hfmem, hge1, hle6, _⟩ := mem_rescoredFor (hmem0 hres)
      by_cases hb5 : ((sortedRescored (stressFilter s)).headD ("", 0, 0)).1
            = "iambic" ∧
          ((sortedRescored (stressFilter s)).headD ("", 0, 0)).2.1 = 5
      · exact iff_of_true (((meterName_eq_iff hfmem hge1 hle6).1).mpr hb5)
          (Or.inl hb5)
      · exact iff_of_false
          (fun h => hb5 (((meterName_eq_iff hfmem hge1 hle6).1).mp h))
          (fun h => h.elim hb5 (fun hge => hbias ⟨not_and_or.mp hb5, hge⟩))
  · intro h12 h13
    have hpne : stressFilter s ≠ [] := by
      intro h
      rw [h] at h12
      simp at h12
    have hn11 : ¬(10 ≤ (stressFilter s).length ∧
        (stressFilter s).length ≤ 11) := by omega
    unfold bestMeterForStressPattern
    dsimp only
    rw [if_neg hpne, if_neg hres, if_neg hn11, if_pos ⟨h12, h13⟩]
    dsimp only
    by_cases hbias :
        ((((sortedRescored (stressFilter s)).headD ("", 0, 0)).1 ≠ "iambic" ∨
            ((sortedRescored (stressFilter s)).headD ("", 0, 0)).2.1 ≠ 6) ∧
          scorePatternForMeter (stressFilter s) "iambic" 6 ≥
            ((sortedRescored (stressFilter s)).headD ("", 0, 0)).2.2 -
              IAMBIC_BIAS_THRESHOLD)
    · rw [if_pos hbias]
      dsimp only
      exact iff_of_true (by with_unfolding_all decide) (Or.inr hbias.2)
    · rw [if_neg hbias]
      dsimp only
      obtain ⟨hfmem, hge1, hle6, _⟩ := mem_rescoredFor (hmem0 hres)
      by_cases hb6 : ((sortedRescored (stressFilter s)).headD ("", 0, 0)).1
            = "iambic" ∧
          ((sortedRescored (stressFilter s)).headD ("", 0, 0)).2.1 = 6
      · exact iff_of_true (((meterName_eq_iff hfmem hge1 hle6).2).mpr hb6)
          (Or.inl hb6)
      · exact iff_of_false
          (fun h => hb6 (((meterName_eq_iff hfmem hge1 hle6).2).mp h))
          (fun h => h.elim hb6 (fun hge => hbias ⟨not_and_or.mp hb6, hge⟩))
  · set_option maxRecDepth 100000 in with_unfolding_all decide

/-- Witness for C4 at the perfect pentameter line "USUSUSUSUS". -/
theorem iambic_bias_ranking_witness :
    (bestMeterForStressPattern "USUSUSUSUS").1 = "iambic pentameter" := by
  have h := (iambic_bias_ranking "USUSUSUSUS"
      (by set_option maxRecDepth 100000 in with_unfolding_all decide)).1
    (by with_unfolding_all decide) (by with_unfolding_all decide)
  exact h.mpr (Or.inl
    (by set_option maxRecDepth 100000 in with_unfolding_all decide))

theorem sum_map_length_set : ∀ (slots : List (List Char)) (i : ℕ) (c : Char),
    i < slots.length →
    (((slots.set i ((slots.getD i []) ++ [c])).map List.length).sum)
      = ((slots.map List.length).sum) + 1
  | [], i, c, h => absurd h (by simp)
  | s :: rest, 0, c, h => by simp [List.getD]; omega
  | s :: rest, i+1, c, h => by
      have ih := sum_map_length_set rest i c (by simpa using h)
      simp only [List.set, List.map, List.sum_cons, List.getD_cons_succ]
      omega

theorem distributeFoldl_length (asg : List (ℕ × Char)) :
    ∀ (init : List (List Char)),
    (asg.foldl (fun slots a =>
      if a.1 < slots.length then slots.set a.1 ((slots.getD a.1 []) ++ [a.2])
      else slots) init).length = init.length := by
  induction asg with
  | nil => intro init; rfl
  | cons a asg ih =>
      intro init
      rw [List.foldl_cons]
      by_cases ha : a.1 < init.length
      · rw [if_pos ha, ih, List.length_set]
      · rw [if_neg ha, ih]

theorem distributeFoldl_sum (asg : List (ℕ × Char)) :
    ∀ (init : List (List Char)), (∀ a ∈ asg, a.1 < init.length) →
    ((asg.foldl (fun slots a =>
      if a.1 < slots.length then slots.set a.1 ((slots.getD a.1 []) ++ [a.2])
      else slots) init).map List.length).sum
      = (init.map List.length).sum + asg.length := by
  induction asg with
  | nil => intro init _; rfl
  | cons a asg ih =>
      intro init hin
      rw [List.foldl_cons, if_pos (hin a (List.mem_cons_self a asg))]
      rw [ih _ (fun b hb => by
        rw [List.length_set]
        exact hin b (List.mem_cons_of_mem a hb))]
      rw [sum_map_length_set init a.1 a.2 (hin a (List.mem_cons_self a asg))]
      simp [Nat.add_comm, Nat.add_assoc, Nat.add_left_comm]

theorem distributeFoldl_nonempty (asg : List (ℕ × Char)) :
    ∀ (init : List (List Char)) (k : ℕ),
    (init.getD k [] ≠ [] ∨ ∃ a ∈ asg, a.1 = k ∧ k < init.length) →
    (asg.foldl (fun slots a =>
      if a.1 < slots.length then slots.set a.1 ((slots.getD a.1 []) ++ [a.2])
      else slots) init).getD k [] ≠ [] := by
  induction asg with
  | nil =>
      intro init k hk
      rcases hk with h | ⟨a, ha, _⟩
      · exact h
      · exact absurd ha (List.not_mem_nil a)
  | cons a asg ih =>
      intro init k hk
      rw [List.foldl_cons]
      by_cases ha : a.1 < init.length
      · rw [if_pos ha]
        apply ih
        by_cases hak : a.1 = k
        · left
          subst hak
          rw [List.getD_eq_getElem?_getD, List.getElem?_set_self (by omega)]
          simp
        · rcases hk with h | ⟨b, hb, hbk, hklen⟩
          · left
            rwa [List.getD_eq_getElem?_getD, List.getElem?_set_ne hak,
              ← List.getD_eq_getElem?_getD]
          · rcases List.mem_cons.mp hb with rfl | hb'
            · exact absurd hbk hak
            · right
              exact ⟨b, hb', hbk, by rwa [List.length_set]⟩
      · rw [if_neg ha]
        apply ih
        rcases hk with h | ⟨b, hb, hbk, hklen⟩
        · exact Or.inl h
        · rcases List.mem_cons.mp hb with rfl | hb'
          · exact absurd hklen (hbk ▸ ha)
          · exact Or.inr ⟨b, hb', hbk, hklen⟩

theorem distributeFoldl_chars (asg : List (ℕ × Char)) :
    ∀ (init : List (List Char)),
    (∀ s ∈ init, ∀ c ∈ s, c = 'U' ∨ c = 'S') →
    (∀ a ∈ asg, a.2 = 'U' ∨ a.2 = 'S') →
    ∀ s ∈ (asg.foldl (fun slots a =>
      if a.1 < slots.length then slots.set a.1 ((slots.getD a.1 []) ++ [a.2])
      else slots) init), ∀ c ∈ s, c = 'U' ∨ c = 'S' := by
  induction asg with
  | nil => intro init hinit _ s hs c hc; exact hinit s hs c hc
  | cons a asg ih =>
      intro init hinit hasg s hs c hc
      rw [List.foldl_cons] at hs
      by_cases ha : a.1 < init.length
      · rw [if_pos ha] at hs
        refine ih _ ?_ (fun b hb => hasg b (List.mem_cons_of_mem a hb)) s hs c hc
        intro t ht d hd
        rcases List.mem_or_eq_of_mem_set ht with ht' | rfl
        · exact hinit t ht' d hd
        · rcases List.mem_append.mp hd with hd' | hd'
          · rcases getD_mem_or_eq init a.1 [] with hm | hm
            · exact hinit _ hm d hd'
            · rw [hm] at hd'
              exact absurd hd' (List.not_mem_nil d)
          · rw [List.mem_singleton.mp hd']
            exact hasg a (List.mem_cons_self a asg)
      · rw [if_neg ha] at hs
        exact ih _ hinit (fun b hb => hasg b (List.mem_cons_of_mem a hb)) s hs c hc

theorem optionsForSyllable_ok (w : String) (m s : Bool) :
    (∀ o ∈ optionsForSyllable w m s, 0 ≤ o.2 ∧ (o.1 = 'U' ∨ o.1 = 'S')) ∧
    (pyMinOption (optionsForSyllable w m s) = 'U' ∨
      pyMinOption (optionsForSyllable w m s) = 'S') := by
  unfold optionsForSyllable
  split_ifs <;>
    (constructor
     · intro o ho
       first
       | (rcases List.mem_cons.mp ho with rfl | ho'
          · exact ⟨by norm_num [FUNCTION_TO_STRONG_FLIP_COST,
              STRONG_TO_WEAK_FLIP_COST, MONO_FLIP_COST, POLY_FLIP_COST], by simp⟩
          · rcases List.mem_singleton.mp ho' with rfl
            exact ⟨by norm_num [FUNCTION_TO_STRONG_FLIP_COST,
              STRONG_TO_WEAK_FLIP_COST, MONO_FLIP_COST, POLY_FLIP_COST], by simp⟩)
     · cases m <;> with_unfolding_all decide)

theorem processWordsGo_ok (tokens : List String) (words : List OracleWord) :
    ∀ (cursor : ℕ), ∀ pw ∈ processWordsGo tokens cursor words,
      pw.units ≠ [] ∧ ∀ u ∈ pw.units, UnitOK u ∧
        (u.default_stress = 'U' ∨ u.default_stress = 'S') ∧
        u.token_index = pw.token_index := by
  induction words with
  | nil => intro cursor pw hpw; exact absurd hpw (List.not_mem_nil pw)
  | cons w ws ih =>
      intro cursor pw hpw
      rw [processWordsGo] at hpw
      split_ifs at hpw with h1 h2 h3 <;>
        first
        | exact ih cursor pw hpw
        | (dsimp only at hpw
           rcases List.mem_cons.mp hpw with rfl | htail
           · constructor
             · dsimp only
               intro hmap
               exact h2 (List.map_eq_nil_iff.mp hmap)
             · intro u hu
               dsimp only at hu
               rw [List.mem_map] at hu
               obtain ⟨syl, hsyl, rfl⟩ := hu
               dsimp only
               refine ⟨?_, ?_, rfl⟩
               · intro o ho
                 exact (optionsForSyllable_ok _ _ _).1 o ho
               · exact (optionsForSyllable_ok _ _ _).2
           · exact ih _ pw htail)

theorem processWordsGo_indices (tokens : List String) (words : List OracleWord) :
    ∀ (cursor : ℕ),
      cursor + (processWordsGo tokens cursor words).length ≤ tokens.length →
      (processWordsGo tokens cursor words).map (fun pw => pw.token_index)
        = List.range' cursor (processWordsGo tokens cursor words).length := by
  induction words with
  | nil => intro cursor _; rfl
  | cons w ws ih =>
      intro cursor hbd
      rw [processWordsGo] at hbd ⊢
      split_ifs at hbd ⊢ with h1 h2 h3
      · exact ih cursor hbd
      · exact ih cursor hbd
      · dsimp only at hbd ⊢
        rw [List.length_cons] at hbd ⊢
        have hmin : min cursor (tokens.length - 1) = cursor := by omega
        rw [List.map_cons, hmin, ih (cursor + 1) (by omega),
          List.range'_succ]
      · dsimp only at hbd
        rw [List.length_cons] at hbd
        omega

theorem mem_meterPathsFor_shape {sylls : List SyllableUnit} {cm : String}
    {cb : ℚ} {p : MeterPath} (hp : p ∈ meterPathsFor sylls cm cb) :
    (p.foot_name, p.feet) ∈ candidateMetersForSyllables sylls.length ∧
    p.pattern = (viterbiForMeter sylls p.foot_name p.feet).1 := by
  unfold meterPathsFor at hp
  dsimp only at hp
  rw [List.mem_filterMap] at hp
  obtain ⟨c, hc, hpc⟩ := hp
  split at hpc
  · exact Option.noConfusion hpc
  · obtain rfl := (Option.some.inj hpc)
    have hfn : (meterPathFor sylls (List.map (fun u => u.default_stress) sylls)
        cm cb c.1 c.2).foot_name = c.1 := rfl
    have hft : (meterPathFor sylls (List.map (fun u => u.default_stress) sylls)
        cm cb c.1 c.2).feet = c.2 := rfl
    rw [hfn, hft]
    exact ⟨hc, rfl⟩

theorem isValidMeterName_compose {foot : String} {feet : ℕ}
    (hf : foot ∈ footNames) (h1 : 1 ≤ feet) (h6 : feet ≤ 6) :
    isValidMeterName (foot ++ " " ++ lineNameByFeet feet) = true := by
  simp only [footNames, List.mem_cons, List.not_mem_nil, or_false] at hf
  rcases hf with rfl | rfl | rfl | rfl <;>
    interval_cases feet <;> with_unfolding_all decide

theorem bestPath_resolved (sylls : List SyllableUnit)
    (context : Option CtxInput) (hs : sylls ≠ [])
    (hne : meterPathsFor sylls (coerceContext context).1
      (CONTEXT_PRIOR_MAX_BONUS * (coerceContext context).2) ≠ []) :
    ∃ p ∈ meterPathsFor sylls (coerceContext context).1
        (CONTEXT_PRIOR_MAX_BONUS * (coerceContext context).2),
      (bestMeterForAmbiguousSyllables sylls context).1
          = p.foot_name ++ " " ++ lineNameByFeet p.feet ∧
      (bestMeterForAmbiguousSyllables sylls context).2.2.2 = p.pattern := by
  unfold bestMeterForAmbiguousSyllables
  dsimp only
  rw [if_neg hs, if_neg hne]
  dsimp only
  have hperm := List.mergeSort_perm (meterPathsFor sylls (coerceContext context).1
    (CONTEXT_PRIOR_MAX_BONUS * (coerceContext context).2))
    (fun a b => decide (b.adjusted_score ≤ a.adjusted_score))
  have hsne : (meterPathsFor sylls (coerceContext context).1
      (CONTEXT_PRIOR_MAX_BONUS * (coerceContext context).2)).mergeSort
        (fun a b => decide (b.adjusted_score ≤ a.adjusted_score)) ≠ [] := by
    intro h
    exact hne (List.Perm.eq_nil (h ▸ hperm).symm)
  have hhead : ∀ (l : List MeterPath) (d : MeterPath), l ≠ [] → l.headD d ∈ l := by
    intro l d hl
    cases l with
    | nil => exact absurd rfl hl
    | cons a t => exact List.mem_cons_self a t
  have hmem0 : ((meterPathsFor sylls (coerceContext context).1
      (CONTEXT_PRIOR_MAX_BONUS * (coerceContext context).2)).mergeSort
        (fun a b => decide (b.adjusted_score ≤ a.adjusted_score))).headD dummyPath
      ∈ meterPathsFor sylls (coerceContext context).1
        (CONTEXT_PRIOR_MAX_BONUS * (coerceContext context).2) :=
    hperm.mem_iff.mp (hhead _ _ hsne)
  split
  · exact ⟨_, hmem0, rfl, rfl⟩
  · split
    · exact ⟨_, hmem0, rfl, rfl⟩
    · rename_i t cand hfind
      split_ifs
      · exact ⟨cand, hperm.mem_iff.mp (List.mem_of_find?_eq_some hfind), rfl, rfl⟩
      · exact ⟨_, hmem0, rfl, rfl⟩

theorem mem_zip_left {α β : Type} : ∀ (l₁ : List α) (l₂ : List β),
    l₁.length = l₂.length → ∀ x ∈ l₁, ∃ y, (x, y) ∈ l₁.zip l₂ := by
  intro l₁
  induction l₁ with
  | nil => intro l₂ _ x hx; exact absurd hx (List.not_mem_nil x)
  | cons a t ih =>
      intro l₂ hlen x hx
      cases l₂ with
      | nil => simp at hlen
      | cons b t₂ =>
          rcases List.mem_cons.mp hx with rfl | hx'
          · exact ⟨b, List.mem_cons_self _ _⟩
          · obtain ⟨y, hy⟩ := ih t₂ (by simpa using hlen) x hx'
            exact ⟨y, List.mem_cons_of_mem _ hy⟩

theorem outputPatternOf_length (sylls : List SyllableUnit)
    (resolved : List Char) (cb : ℚ) :
    (outputPatternOf sylls resolved cb).length = sylls.length := by
  simp [outputPatternOf]

theorem outputPatternOf_chars {sylls : List SyllableUnit}
    {resolved : List Char} (cb : ℚ)
    (hdef : ∀ u ∈ sylls, u.default_stress = 'U' ∨ u.default_stress = 'S')
    (hres : ∀ ch ∈ resolved, ch = 'U' ∨ ch = 'S') :
    ∀ ch ∈ outputPatternOf sylls resolved cb, ch = 'U' ∨ ch = 'S' := by
  intro ch hch
  unfold outputPatternOf at hch
  rw [List.mem_map] at hch
  obtain ⟨idx, hidx, rfl⟩ := hch
  dsimp only
  have hu : (sylls.getD idx defaultUnit).default_stress = 'U' ∨
      (sylls.getD idx defaultUnit).default_stress = 'S' := by
    rcases getD_mem_or_eq sylls idx defaultUnit with hm | hm
    · exact hdef _ hm
    · rw [hm]; left; rfl
  have hc : resolved.getD idx 'U' = 'U' ∨ resolved.getD idx 'U' = 'S' := by
    rcases getD_mem_or_eq resolved idx 'U' with hm | hm
    · exact hres _ hm
    · rw [hm]; left; rfl
  split_ifs <;> first | exact hu | exact hc

theorem bestMeter_noPaths (sylls : List SyllableUnit)
    (context : Option CtxInput) (hs : sylls ≠ [])
    (hmp : meterPathsFor sylls (coerceContext context).1
      (CONTEXT_PRIOR_MAX_BONUS * (coerceContext context).2) = []) :
    bestMeterForAmbiguousSyllables sylls context
      = ("", 0, [("margin", 0)], sylls.map (fun u => u.default_stress)) := by
  unfold bestMeterForAmbiguousSyllables
  dsimp only
  rw [if_neg hs, if_pos hmp]

theorem tokenPatternsOutOf_facts (numSlots : ℕ) (sylls : List SyllableUnit)
    (outputPattern : List Char)
    (hlen : outputPattern.length = sylls.length)
    (hidx_lt : ∀ u ∈ sylls, u.token_index < numSlots)
    (hcover : ∀ k, k < numSlots → k ∈ sylls.map (fun u => u.token_index))
    (hchars : ∀ ch ∈ outputPattern, ch = 'U' ∨ ch = 'S') :
    (tokenPatternsOutOf numSlots sylls outputPattern).flatten.length
        = sylls.length ∧
    (∀ pat ∈ tokenPatternsOutOf numSlots sylls outputPattern,
      ∀ ch ∈ pat, ch = 'U' ∨ ch = 'S') := by
  have hzlen : ((sylls.map (fun u => u.token_index)).zip outputPattern).length
      = sylls.length := by
    rw [List.length_zip, List.length_map, hlen, Nat.min_self]
  have hmaplen : (sylls.map (fun u => u.token_index)).length
      = outputPattern.length := by rw [List.length_map, hlen]
  have hasg_lt : ∀ a ∈ (sylls.map (fun u => u.token_index)).zip outputPattern,
      a.1 < (List.replicate numSlots ([] : List Char)).length := by
    intro a ha
    rw [List.length_replicate]
    have h1 := (List.of_mem_zip ha).1
    rw [List.mem_map] at h1
    obtain ⟨u, hu, he⟩ := h1
    rw [← he]
    exact hidx_lt u hu
  have hslen : (distributeToSlots numSlots
      ((sylls.map (fun u => u.token_index)).zip outputPattern)).length
      = numSlots := by
    unfold distributeToSlots
    rw [distributeFoldl_length, List.length_replicate]
  have hsum : ((distributeToSlots numSlots
      ((sylls.map (fun u => u.token_index)).zip outputPattern)).map
        List.length).sum = sylls.length := by
    unfold distributeToSlots
    rw [distributeFoldl_sum _ _ hasg_lt]
    simp [hzlen]
  have hne : ∀ s ∈ distributeToSlots numSlots
      ((sylls.map (fun u => u.token_index)).zip outputPattern), s ≠ [] := by
    intro s hs
    obtain ⟨k, hk, rfl⟩ := List.mem_iff_getElem.mp hs
    rw [← List.getD_eq_getElem _ [] hk]
    unfold distributeToSlots
    apply distributeFoldl_nonempty
    right
    have hkn : k < numSlots := by rwa [hslen] at hk
    have hkm := hcover k hkn
    obtain ⟨y, hy⟩ := mem_zip_left _ outputPattern hmaplen k hkm
    exact ⟨(k, y), hy, rfl, by rwa [List.length_replicate]⟩
  have hid : tokenPatternsOutOf numSlots sylls outputPattern
      = distributeToSlots numSlots
        ((sylls.map (fun u => u.token_index)).zip outputPattern) := by
    unfold tokenPatternsOutOf
    rw [List.map_congr_left (fun s hs => if_neg (hne s hs)), List.map_id']
  have hcharss : ∀ pat ∈ tokenPatternsOutOf numSlots sylls outputPattern,
      ∀ ch ∈ pat, ch = 'U' ∨ ch = 'S' := by
    rw [hid]
    unfold distributeToSlots
    apply distributeFoldl_chars
    · intro s hs c hc
      rw [List.eq_of_mem_replicate hs] at hc
      exact absurd hc (List.not_mem_nil c)
    · intro a ha
      exact hchars a.2 (List.of_mem_zip ha).2
  refine ⟨?_, hcharss⟩
  rw [hid, List.length_flatten, hsum]

/-- C1, counterexample: a line whose syllable count (16) fits no meter
template leaves `_best_meter_for_ambiguous_syllables` without candidates, so
`analyze_line` returns a `LineAnalysis` whose `meter_name` is the empty
string, which does not match the spec's meter-name grammar. -/
theorem analyze_line_meter_grammar_counterexample :
    (analyzeLine "baby baby baby baby baby baby baby baby"
        ["baby", "baby", "baby", "baby", "baby", "baby", "baby", "baby"]
        (List.replicate 8 ⟨"baby", false, [⟨"ba", true⟩, ⟨"by", false⟩]⟩)
        0 none).map (fun la => la.meter_name) = some "" ∧
    isValidMeterName "" = false := by
  constructor
  · set_option maxRecDepth 200000 in with_unfolding_all decide
  · with_unfolding_all decide

/-- C1 (amended): for every `LineAnalysis` returned by `analyze_line`, when
the oracle produces at most as many stress-bearing words as `TOKEN_RE`
tokens: the stress pattern is the concatenation of the token sub-patterns,
its length is the number of syllable units built for the line, every
symbol of it (and of each token sub-pattern) is 'U' or 'S', the confidence
lies in [0,1], and the meter name matches the grammar or is the empty
string (no candidate template fits the line's syllable count). -/
theorem analyze_line_invariants (lineText : String) (tokens : List String)
    (words : List OracleWord) (lineNo : ℤ) (context : Option CtxInput)
    (la : LineAnalysis)
    (hW : (processWords tokens words).length ≤ tokens.length)
    (h : analyzeLine lineText tokens words lineNo context = some la) :
    la.stress_pattern = la.token_patterns.flatten ∧
    la.stress_pattern.length
      = ((processWords tokens words).flatMap (fun pw => pw.units)).length ∧
    (∀ ch ∈ la.stress_pattern, ch = 'U' ∨ ch = 'S') ∧
    (∀ pat ∈ la.token_patterns, ∀ ch ∈ pat, ch = 'U' ∨ ch = 'S') ∧
    0 ≤ la.confidence ∧ la.confidence ≤ 1 ∧
    (isValidMeterName la.meter_name = true ∨ la.meter_name = "") := by
  -- structural facts about the processed words
  have hok : ∀ pw ∈ processWords tokens words, pw.units ≠ [] ∧
      ∀ u ∈ pw.units, UnitOK u ∧
        (u.default_stress = 'U' ∨ u.default_stress = 'S') ∧
        u.token_index = pw.token_index :=
    processWordsGo_ok tokens words 0
  have hidx : (processWords tokens words).map (fun pw => pw.token_index)
      = List.range' 0 (processWords tokens words).length :=
    processWordsGo_indices tokens words 0 (by simpa using hW)
  have hUnitOK : ∀ u ∈ (processWords tokens words).flatMap
      (fun pw => pw.units), UnitOK u := by
    intro u hu
    rw [List.mem_flatMap] at hu
    obtain ⟨pw, hpw, hu⟩ := hu
    exact ((hok pw hpw).2 u hu).1
  have hdef : ∀ u ∈ (processWords tokens words).flatMap
      (fun pw => pw.units),
      u.default_stress = 'U' ∨ u.default_stress = 'S' := by
    intro u hu
    rw [List.mem_flatMap] at hu
    obtain ⟨pw, hpw, hu⟩ := hu
    exact ((hok pw hpw).2 u hu).2.1
  have hidx_lt : ∀ u ∈ (processWords tokens words).flatMap
      (fun pw => pw.units),
      u.token_index < (processWords tokens words).length := by
    intro u hu
    rw [List.mem_flatMap] at hu
    obtain ⟨pw, hpw, hu⟩ := hu
    rw [((hok pw hpw).2 u hu).2.2]
    have : pw.token_index ∈ (processWords tokens words).map
        (fun pw => pw.token_index) := List.mem_map.mpr ⟨pw, hpw, rfl⟩
    rw [hidx, List.mem_range'_1] at this
    omega
  have hcover : ∀ k, k < (processWords tokens words).length →
      k ∈ ((processWords tokens words).flatMap (fun pw => pw.units)).map
        (fun u => u.token_index) := by
    intro k hk
    have hpwmem : (processWords tokens words)[k] ∈ processWords tokens words :=
      List.getElem_mem hk
    have hne := (hok _ hpwmem).1
    obtain ⟨u, hu⟩ := List.exists_mem_of_ne_nil _ hne
    have htk : u.token_index = k := by
      rw [((hok _ hpwmem).2 u hu).2.2]
      have h1 : ((processWords tokens words).map
          (fun pw => pw.token_index))[k]?
          = some ((processWords tokens words)[k].token_index) := by
        rw [List.getElem?_map, List.getElem?_eq_getElem hk]
        rfl
      rw [hidx, List.getElem?_range'] at h1
      · simpa using (Option.some.inj h1).symm
      · exact hk
    exact List.mem_map.mpr ⟨u,
      List.mem_flatMap.mpr ⟨_, hpwmem, hu⟩, htk⟩
  -- unfold analyzeLine
  unfold analyzeLine at h
  dsimp only at h
  split_ifs at h with ht htk hsy
  obtain rfl := Option.some.inj h
  have hres_chars : ∀ ch ∈ resolvedOf
      ((processWords tokens words).flatMap (fun pw => pw.units))
      (bestMeterForAmbiguousSyllables
        ((processWords tokens words).flatMap (fun pw => pw.units))
        context).2.2.2,
      ch = 'U' ∨ ch = 'S' := by
    unfold resolvedOf
    split_ifs with hlen
    · intro ch hch
      rw [List.mem_map] at hch
      obtain ⟨u, hu, rfl⟩ := hch
      exact hdef u hu
    · by_cases hmp : meterPathsFor
          ((processWords tokens words).flatMap (fun pw => pw.units))
          (coerceContext context).1
          (CONTEXT_PRIOR_MAX_BONUS * (coerceContext context).2) = []
      · rw [bestMeter_noPaths _ _ hsy hmp]
        intro ch hch
        rw [List.mem_map] at hch
        obtain ⟨u, hu, rfl⟩ := hch
        exact hdef u hu
      · obtain ⟨p, hpmem, hname, hpat⟩ := bestPath_resolved _ context hsy hmp
        rw [hpat, (mem_meterPathsFor_shape hpmem).2]
        exact viterbi_pattern_chars hUnitOK hdef
  have hout : ∀ ch ∈ outputPatternOf
      ((processWords tokens words).flatMap (fun pw => pw.units))
      (resolvedOf ((processWords tokens words).flatMap (fun pw => pw.units))
        (bestMeterForAmbiguousSyllables
          ((processWords tokens words).flatMap (fun pw => pw.units))
          context).2.2.2)
      ((List.lookup "context_bonus"
        (bestMeterForAmbiguousSyllables
          ((processWords tokens words).flatMap (fun pw => pw.units))
          context).2.2.1).getD 0),
      ch = 'U' ∨ ch = 'S' :=
    outputPatternOf_chars _ hdef hres_chars
  have hfacts := tokenPatternsOutOf_facts (processWords tokens words).length
    ((processWords tokens words).flatMap (fun pw => pw.units))
    (outputPatternOf
      ((processWords tokens words).flatMap (fun pw => pw.units))
      (resolvedOf ((processWords tokens words).flatMap (fun pw => pw.units))
        (bestMeterForAmbiguousSyllables
          ((processWords tokens words).flatMap (fun pw => pw.units))
          context).2.2.2)
      ((List.lookup "context_bonus"
        (bestMeterForAmbiguousSyllables
          ((processWords tokens words).flatMap (fun pw => pw.units))
          context).2.2.1).getD 0))
    (outputPatternOf_length _ _ _) hidx_lt hcover hout
  refine ⟨rfl, hfacts.1, ?_, hfacts.2, le_max_left 0 _,
    max_le (by norm_num) (min_le_left 1 _), ?_⟩
  · intro ch hch
    rw [List.mem_flatten] at hch
    obtain ⟨pat, hpat, hch⟩ := hch
    exact hfacts.2 pat hpat ch hch
  · by_cases hmp : meterPathsFor
        ((processWords tokens words).flatMap (fun pw => pw.units))
        (coerceContext context).1
        (CONTEXT_PRIOR_MAX_BONUS * (coerceContext context).2) = []
    · right
      show (bestMeterForAmbiguousSyllables _ context).1 = ""
      rw [bestMeter_noPaths _ _ hsy hmp]
    · left
      obtain ⟨p, hpmem, hname, hpat⟩ := bestPath_resolved _ context hsy hmp
      show isValidMeterName (bestMeterForAmbiguousSyllables _ context).1 = true
      rw [hname]
      obtain ⟨hf, h1, h6, _⟩ := (mem_candidateMetersForSyllables _ _ _).mp
        (mem_meterPathsFor_shape hpmem).1
      exact isValidMeterName_compose hf h1 h6

end MeterMeter

namespace MeterMeter

/-- Witness for C1 at the one-word line "day". -/
theorem analyze_line_invariants_witness :
    0 ≤ (((analyzeLine "day" ["day"]
        [⟨"day", false, [⟨"day", true⟩]⟩] 0 none).getD
        ⟨0, "", [], [], "", 0, 0, [], [], []⟩).confidence) ∧
    (isValidMeterName (((analyzeLine "day" ["day"]
        [⟨"day", false, [⟨"day", true⟩]⟩] 0 none).getD
        ⟨0, "", [], [], "", 0, 0, [], [], []⟩).meter_name) = true ∨
      (((analyzeLine "day" ["day"]
        [⟨"day", false, [⟨"day", true⟩]⟩] 0 none).getD
        ⟨0, "", [], [], "", 0, 0, [], [], []⟩).meter_name) = "") := by
  have h : analyzeLine "day" ["day"]
      [⟨"day", false, [⟨"day", true⟩]⟩] 0 none
      = some ((analyzeLine "day" ["day"]
        [⟨"day", false, [⟨"day", true⟩]⟩] 0 none).getD
        ⟨0, "", [], [], "", 0, 0, [], [], []⟩) := by
    set_option maxRecDepth 200000 in with_unfolding_all decide
  have H := analyze_line_invariants "day" ["day"] [⟨"day", false, [⟨"day", true⟩]⟩] 0 none _
    (by with_unfolding_all decide) h
  exact ⟨H.2.2.2.2.1, H.2.2.2.2.2.2⟩
end MeterMeter
